import Mathlib

/-!
Shallow embedding of the JUCE timer-scheduling core
(`src/modules/juce_events/timers/juce_Timer.cpp`) together with proofs of the
queue invariants and the client-level state machine properties.

The shared queue `Timer::TimerThread::timers` is a vector of
`TimerCountdown \x7b Timer* timer; int countdownMs \x7d` entries.  Each `Timer`
object carries two fields mutated by the scheduler: `timerPeriodMs` and
`positionInQueue`.  We model `Timer*` identity as a natural number and the two
per-timer fields as total maps from those identities, so a whole scheduler
state is a `TimerSys`.  All integer fields of the C++ code are `int`s holding
millisecond counts far below any overflow boundary, so they are modelled as
unbounded `Int`; the one place where unsigned 32-bit wraparound matters (the
millisecond counter in `run()`) is modelled explicitly in `computeElapsed`.
-/

namespace JuceTimer

/-- One slot of the `timers` vector: struct `TimerCountdown` in the source
(a `Timer*` identity plus its remaining countdown in milliseconds). -/
structure TimerCountdown where
  timer : Nat
  countdownMs : Int
  deriving DecidableEq, Repr, Inhabited

/-- Pointwise update of a per-timer field map, modelling an assignment
through a `Timer*` such as `t.timer->positionInQueue = pos`. -/
def updFn {α : Type} (P : Nat → α) (t : Nat) (v : α) : Nat → α :=
  fun u => if u = t then v else P u

/-- State of the scheduler: the `timers` vector owned by
`Timer::TimerThread`, plus the `positionInQueue` and `timerPeriodMs` fields
of every `Timer` object, read through the identity of the timer. -/
structure TimerSys where
  timers : List TimerCountdown
  positionInQueue : Nat → Nat
  timerPeriodMs : Nat → Int

/-- Loop body of `TimerThread::shuffleTimerForwardInQueue`: the entry `t`
conceptually sits in the slot `pos` (whose stored content is stale); while the
preceding entry has a strictly larger countdown it is copied one slot up (and
its recorded position fixed), then `t` is written into the slot where the
walk stopped.  The pair is (timers vector, positionInQueue map). -/
def shuffleForwardLoop (t : TimerCountdown) :
    Nat → List TimerCountdown × (Nat → Nat) → List TimerCountdown × (Nat → Nat)
  | 0, lp => (lp.1.set 0 t, updFn lp.2 t.timer 0)
  | pos + 1, lp =>
    let prev := lp.1.getD pos default
    if prev.countdownMs ≤ t.countdownMs then
      (lp.1.set (pos + 1) t, updFn lp.2 t.timer (pos + 1))
    else
      shuffleForwardLoop t pos (lp.1.set (pos + 1) prev, updFn lp.2 prev.timer (pos + 1))

/-- The function `TimerThread::shuffleTimerForwardInQueue (size_t pos)`. -/
def shuffleTimerForwardInQueue (s : TimerSys) (pos : Nat) : TimerSys :=
  if 0 < pos then
    let t := s.timers.getD pos default
    let r := shuffleForwardLoop t pos (s.timers, s.positionInQueue)
    { s with timers := r.1, positionInQueue := r.2 }
  else s

/-- Loop body of `TimerThread::shuffleTimerBackInQueue`: symmetric walk
towards the back of the queue.  The source compares `next == numTimers`
where `numTimers` is the vector size captured before the loop; we phrase the
bound check as `numTimers ≤ pos + 1`, which agrees with it on every
reachable call. -/
def shuffleBackLoopAux (t : TimerCountdown) :
    Nat → List TimerCountdown × (Nat → Nat) → Nat → List TimerCountdown × (Nat → Nat)
  | 0, lp, pos => (lp.1.set pos t, updFn lp.2 t.timer pos)
  | gas + 1, lp, pos =>
    let nxt := lp.1.getD (pos + 1) default
    if t.countdownMs ≤ nxt.countdownMs then
      (lp.1.set pos t, updFn lp.2 t.timer pos)
    else
      shuffleBackLoopAux t gas (lp.1.set pos nxt, updFn lp.2 nxt.timer pos) (pos + 1)

/-- The loop of `shuffleTimerBackInQueue` with the number of slots remaining
to the right of `pos` (`numTimers - (pos + 1)`) made explicit as the
structural recursion measure; `shuffleBackLoop_eq` below restates it in the
shape of the source loop, whose stop test is `next == numTimers`. -/
def shuffleBackLoop (numTimers : Nat) (t : TimerCountdown)
    (lp : List TimerCountdown × (Nat → Nat)) (pos : Nat) :
    List TimerCountdown × (Nat → Nat) :=
  shuffleBackLoopAux t (numTimers - (pos + 1)) lp pos

/-- The function `TimerThread::shuffleTimerBackInQueue (size_t pos)`.  The
guard `pos < numTimers - 1` uses truncated subtraction; on an empty vector
the C++ `size_t` version reads out of bounds (undefined behaviour, flagged
unreachable in the source), here it is a no-op. -/
def shuffleTimerBackInQueue (s : TimerSys) (pos : Nat) : TimerSys :=
  let numTimers := s.timers.length
  if pos < numTimers - 1 then
    let t := s.timers.getD pos default
    let r := shuffleBackLoop numTimers t (s.timers, s.positionInQueue) pos
    { s with timers := r.1, positionInQueue := r.2 }
  else s

/-- The shifting loop of `TimerThread::removeTimer`: entries after `i` are
moved one slot down and their recorded positions decremented. -/
def removeShiftLoopAux :
    Nat → List TimerCountdown × (Nat → Nat) → Nat → List TimerCountdown × (Nat → Nat)
  | 0, lp, _ => lp
  | gas + 1, lp, i =>
    let e := lp.1.getD (i + 1) default
    removeShiftLoopAux gas (lp.1.set i e, updFn lp.2 e.timer i) (i + 1)

/-- The shifting loop of `removeTimer` with the number of remaining moves
(`lastIndex - i`) made explicit as the structural recursion measure;
`removeShiftLoop_eq` below restates it in the shape of the source loop. -/
def removeShiftLoop (lastIndex : Nat) (lp : List TimerCountdown × (Nat → Nat))
    (i : Nat) : List TimerCountdown × (Nat → Nat) :=
  removeShiftLoopAux (lastIndex - i) lp i

/-- The function `TimerThread::addTimer (Timer* t)`: push `(t, periodMs)` at
the tail, record the tail position on the timer, then shuffle it forward. -/
def addTimer (s : TimerSys) (t : Nat) : TimerSys :=
  let pos := s.timers.length
  let s1 : TimerSys :=
    { s with
      timers := s.timers ++ [⟨t, s.timerPeriodMs t⟩]
      positionInQueue := updFn s.positionInQueue t pos }
  shuffleTimerForwardInQueue s1 pos

/-- The function `TimerThread::removeTimer (Timer* t)`: shift every later
entry one slot down (fixing recorded positions) and pop the last slot. -/
def removeTimer (s : TimerSys) (t : Nat) : TimerSys :=
  let pos := s.positionInQueue t
  let lastIndex := s.timers.length - 1
  let r := removeShiftLoop lastIndex (s.timers, s.positionInQueue) pos
  { s with timers := r.1.dropLast, positionInQueue := r.2 }

/-- The function `TimerThread::resetTimerCounter (Timer* t)`: overwrite the
countdown of the slot recorded for `t` with the (possibly changed) period and
re-sort it towards the back or the front depending on the direction of the
change. -/
def resetTimerCounter (s : TimerSys) (t : Nat) : TimerSys :=
  let pos := s.positionInQueue t
  let lastCountdown := (s.timers.getD pos default).countdownMs
  let newCountdown := s.timerPeriodMs t
  if newCountdown = lastCountdown then s
  else
    let s1 : TimerSys :=
      { s with timers := s.timers.set pos ⟨(s.timers.getD pos default).timer, newCountdown⟩ }
    if lastCountdown < newCountdown then shuffleTimerBackInQueue s1 pos
    else shuffleTimerForwardInQueue s1 pos

/-- The method `Timer::startTimer (int interval)`: the stored period becomes
`jmax (1, interval)`; a stopped timer is enqueued, a running one only has its
countdown reset. -/
def startTimer (s : TimerSys) (t : Nat) (interval : Int) : TimerSys :=
  let wasStopped := s.timerPeriodMs t = 0
  let s1 : TimerSys := { s with timerPeriodMs := updFn s.timerPeriodMs t (max 1 interval) }
  if wasStopped then addTimer s1 t else resetTimerCounter s1 t

/-- The method `Timer::stopTimer ()`: remove from the queue and zero the
period, a no-op when the period is not positive. -/
def stopTimer (s : TimerSys) (t : Nat) : TimerSys :=
  if 0 < s.timerPeriodMs t then
    let s1 := removeTimer s t
    { s1 with timerPeriodMs := updFn s1.timerPeriodMs t 0 }
  else s

/-- The method `Timer::startTimerHz (int timerFrequencyHz)`. -/
def startTimerHz (s : TimerSys) (t : Nat) (timerFrequencyHz : Int) : TimerSys :=
  if 0 < timerFrequencyHz then startTimer s t (1000 / timerFrequencyHz)
  else stopTimer s t

/-- Elapsed-time computation of `TimerThread::run()`: with `uint32` readings
`now` and `lastTime`, the source computes
`now >= lastTime ? now - lastTime : UINT32_MAX - (lastTime - now)`. -/
def computeElapsed (now lastTime : Nat) : Nat :=
  if lastTime ≤ now then now - lastTime
  else (2 ^ 32 - 1) - (lastTime - now)

/-- The function `TimerThread::getTimeUntilFirstTimer (int numMillisecsElapsed)`:
returns 1000 on an empty queue, otherwise decrements every countdown by the
elapsed amount and returns the front countdown. -/
def getTimeUntilFirstTimer (s : TimerSys) (numMillisecsElapsed : Int) : TimerSys × Int :=
  if s.timers.isEmpty then (s, 1000)
  else
    let newTimers := s.timers.map fun e => { e with countdownMs := e.countdownMs - numMillisecsElapsed }
    ({ s with timers := newTimers }, (newTimers.headD default).countdownMs)

/-- Environment of one `callTimers` round: whether a `MessageManager`
instance exists and whether its quit message has been sent (the shutdown
check at the top of `callTimers`), plus, for each timer identity, how many
milliseconds its callback consumes and whether the callback body raises an
exception.  Callback bodies are external client code; the queue state never
depends on what they do. -/
structure CallEnv where
  mmExists : Bool
  stopMessageBeenSent : Bool
  callbackDuration : Nat → Nat
  callbackThrows : Nat → Bool

/-- Record of one callback invocation performed by a round: which timer ran,
the millisecond-counter reading when its callback was entered, the countdown
stored in its queue slot at that moment (the source wrote
`first.countdownMs = timer->timerPeriodMs` just before), and whether the
callback body completed without raising.  An exception raised by the body is
caught and swallowed by the surrounding JUCE_TRY/JUCE_CATCH_EXCEPTION, which
is why control continues identically either way. -/
structure Invocation where
  timer : Nat
  startMs : Nat
  countdownAtCall : Int
  completed : Bool
  deriving DecidableEq, Repr

/-- Modelled from the spec: the `JUCE_TRY / JUCE_CATCH_EXCEPTION` wrapper
around `timer->timerCallback()`.  Those wrapper definitions live in the juce_core
platform headers, outside this excerpt; per the specification an exception
raised inside a client callback is caught and suppressed at the invocation
boundary, so invoking a callback always returns control to the loop.  The
invocation consumes the callback duration of the timer and records whether
the body completed without raising; it has no other effect on the scheduler
state (callback bodies are external client code). -/
def invokeCallback (env : CallEnv) (t : Nat) (now : Nat)
    (countdownAtCall : Int) : Invocation × Nat :=
  (⟨t, now, countdownAtCall, ! env.callbackThrows t⟩, now + env.callbackDuration t)

/-- The while-loop of `TimerThread::callTimers`: while the front entry is
due (countdown not positive), reset its countdown to the full period, shuffle
it back into place, release the lock and invoke its callback, and stop early
when the clock passed `timeout`.  The loop in the source terminates because
the wall clock eventually passes the 100 ms deadline; the embedding totalises
it with an explicit `fuel` bound on iterations, and every theorem below is
quantified over all fuel values.  Returns the final state, the list of
invocations performed, and the clock reading at the end. -/
def callTimersLoop (env : CallEnv) (timeout : Nat) :
    Nat → TimerSys → Nat → TimerSys × List Invocation × Nat
  | 0, s, now => (s, [], now)
  | fuel + 1, s, now =>
    match s.timers with
    | [] => (s, [], now)
    | first :: _ =>
      if 0 < first.countdownMs then (s, [], now)
      else
        let t := first.timer
        let s1 : TimerSys := { s with timers := s.timers.set 0 ⟨t, s.timerPeriodMs t⟩ }
        let s2 := shuffleTimerBackInQueue s1 0
        let call := invokeCallback env t now (s.timerPeriodMs t)
        if timeout < call.2 then (s2, [call.1], call.2)
        else
          let r := callTimersLoop env timeout fuel s2 call.2
          (r.1, call.1 :: r.2.1, r.2.2)

/-- The function `TimerThread::callTimers`: if a `MessageManager` exists and
its stop message has been sent, return immediately (before taking the queue
lock); otherwise fix the hard deadline at `now + 100` and run the due-timer
loop. -/
def callTimers (env : CallEnv) (now : Nat) (fuel : Nat) (s : TimerSys) :
    TimerSys × List Invocation × Nat :=
  if env.mmExists && env.stopMessageBeenSent then (s, [], now)
  else callTimersLoop env (now + 100) fuel s now

/-- Shorthand for the state after the pop-and-reinsert step of one
`callTimers` iteration on a queue decomposed as `first :: rest`: the front
countdown is overwritten with the full period
(`first.countdownMs = timer->timerPeriodMs`) and the front entry is shuffled
back into place.  This is literally the expression occurring inside
`callTimersLoop`. -/
def popReinsert (s : TimerSys) (first : TimerCountdown)
    (rest : List TimerCountdown) : TimerSys :=
  shuffleTimerBackInQueue
    ⟨⟨first.timer, s.timerPeriodMs first.timer⟩ :: rest,
      s.positionInQueue, s.timerPeriodMs⟩ 0

/-! Invariants of the queue, straight from the specification of the data
model: ascending order by countdown, no duplicated handle, and recorded
positions matching true indices. -/

/-- Ascending order of a queue segment by remaining countdown. -/
def sortedByCountdown (l : List TimerCountdown) : Prop :=
  List.Pairwise (fun a b => a.countdownMs ≤ b.countdownMs) l

/-- Positions recorded on the handles of the segment `l` match the true
indices `n, n+1, ...` which `l` occupies inside the queue. -/
def posOKFrom (P : Nat → Nat) (n : Nat) (l : List TimerCountdown) : Prop :=
  ∀ i, i < l.length → P ((l.getD i default).timer) = n + i

/-- Queue well-formedness: sorted ascending by countdown, each handle present
at most once, recorded positions equal to true indices. -/
def QueueInv (s : TimerSys) : Prop :=
  sortedByCountdown s.timers ∧
    (s.timers.map TimerCountdown.timer).Nodup ∧
    posOKFrom s.positionInQueue 0 s.timers

/-- Client-level state-machine invariant: a handle is in the queue exactly
when its stored period is positive. -/
def activeInv (s : TimerSys) : Prop :=
  ∀ t : Nat, (∃ e ∈ s.timers, e.timer = t) ↔ 0 < s.timerPeriodMs t

/-- Stored periods are never negative (`startTimer` clamps to at least 1,
`stopTimer` writes 0). -/
def periodNonneg (s : TimerSys) : Prop :=
  ∀ t : Nat, 0 ≤ s.timerPeriodMs t

/-- Full invariant tying the queue shape to the client state machine. -/
def Inv (s : TimerSys) : Prop :=
  QueueInv s ∧ activeInv s ∧ periodNonneg s

/-! Small concrete states and environments, used to evaluate the theorems
below on explicit inputs. -/

/-- The empty scheduler state: no queued timer, all periods zero. -/
def exEmpty : TimerSys := ⟨[], fun _ => 0, fun _ => 0⟩

/-- Two timers, ids 10 and 20, periods 3 ms and 7 ms, both freshly queued. -/
def exTwo : TimerSys :=
  ⟨[⟨10, 3⟩, ⟨20, 7⟩],
    updFn (updFn (fun _ => 0) 10 0) 20 1,
    updFn (updFn (fun _ => 0) 10 3) 20 7⟩

/-- The same two timers after time passed: both countdowns are due. -/
def exDue : TimerSys :=
  ⟨[⟨10, -2⟩, ⟨20, 0⟩],
    updFn (updFn (fun _ => 0) 10 0) 20 1,
    updFn (updFn (fun _ => 0) 10 3) 20 7⟩

/-- A live environment: message manager exists, no stop message yet; every
callback takes 60 ms and the callback of timer 10 raises. -/
def exEnv : CallEnv := ⟨true, false, fun _ => 60, fun t => t == 10⟩

/-- An environment where the event loop is already shutting down. -/
def exEnvStop : CallEnv := ⟨true, true, fun _ => 10, fun _ => false⟩

/-! Basic facts about the pointwise field update. -/

theorem updFn_same {α : Type} (P : Nat → α) (t : Nat) (v : α) : updFn P t v t = v := by
  simp [updFn]

theorem updFn_other {α : Type} (P : Nat → α) (t : Nat) (v : α) (u : Nat) (h : u ≠ t) :
    updFn P t v u = P u := by
  simp [updFn, h]

/-! Unfolding equations restoring the source-loop shape of the two
gas-counted loops. -/

theorem shuffleBackLoop_eq (numTimers : Nat) (t : TimerCountdown)
    (lp : List TimerCountdown × (Nat → Nat)) (pos : Nat) :
    shuffleBackLoop numTimers t lp pos =
      if pos + 1 < numTimers then
        let nxt := lp.1.getD (pos + 1) default
        if t.countdownMs ≤ nxt.countdownMs then
          (lp.1.set pos t, updFn lp.2 t.timer pos)
        else
          shuffleBackLoop numTimers t (lp.1.set pos nxt, updFn lp.2 nxt.timer pos)
            (pos + 1)
      else
        (lp.1.set pos t, updFn lp.2 t.timer pos) := by
  by_cases h : pos + 1 < numTimers
  · rw [if_pos h]
    have hk : numTimers - (pos + 1) = (numTimers - (pos + 1 + 1)) + 1 := by omega
    rw [shuffleBackLoop, hk, shuffleBackLoopAux]
    rfl
  · rw [if_neg h]
    have hk : numTimers - (pos + 1) = 0 := by omega
    rw [shuffleBackLoop, hk, shuffleBackLoopAux]

theorem removeShiftLoop_eq (lastIndex : Nat)
    (lp : List TimerCountdown × (Nat → Nat)) (i : Nat) :
    removeShiftLoop lastIndex lp i =
      if i < lastIndex then
        let e := lp.1.getD (i + 1) default
        removeShiftLoop lastIndex (lp.1.set i e, updFn lp.2 e.timer i) (i + 1)
      else lp := by
  by_cases h : i < lastIndex
  · rw [if_pos h]
    have hk : lastIndex - i = (lastIndex - (i + 1)) + 1 := by omega
    rw [removeShiftLoop, hk, removeShiftLoopAux]
    rfl
  · rw [if_neg h]
    have hk : lastIndex - i = 0 := by omega
    rw [removeShiftLoop, hk, removeShiftLoopAux]

/-! List index helpers used to relate the index-based loops of the source to
structural decompositions of the queue. -/

theorem getD_append_length (A : List TimerCountdown) (x : TimerCountdown)
    (B : List TimerCountdown) : (A ++ x :: B).getD A.length default = x := by
  induction A with
  | nil => rfl
  | cons a A ih => simpa using ih

theorem getD_append_length_succ (A : List TimerCountdown) (x b : TimerCountdown)
    (B : List TimerCountdown) : (A ++ x :: b :: B).getD (A.length + 1) default = b := by
  induction A with
  | nil => rfl
  | cons a A ih => simpa using ih

theorem set_at_length (A : List TimerCountdown) (x v : TimerCountdown)
    (B : List TimerCountdown) : (A ++ x :: B).set A.length v = A ++ v :: B := by
  induction A with
  | nil => rfl
  | cons a A ih => simpa using ih

theorem decompose_at (l : List TimerCountdown) (j : Nat) (h : j < l.length) :
    l = l.take j ++ l.getD j default :: l.drop (j + 1) := by
  induction j generalizing l with
  | zero =>
    cases l with
    | nil => simp at h
    | cons a l => rfl
  | succ j ih =>
    cases l with
    | nil => simp at h
    | cons a l =>
      simp only [List.length_cons, Nat.succ_lt_succ_iff] at h
      simpa using ih l h

/-! Compositional characterisation of `posOKFrom`. -/

theorem posOKFrom_nil (P : Nat → Nat) (n : Nat) : posOKFrom P n [] := by
  intro i hi; simp at hi

theorem posOKFrom_cons (P : Nat → Nat) (n : Nat) (x : TimerCountdown)
    (l : List TimerCountdown) :
    posOKFrom P n (x :: l) ↔ P x.timer = n ∧ posOKFrom P (n + 1) l := by
  constructor
  · intro h
    refine ⟨by simpa using h 0 (by simp), ?_⟩
    intro i hi
    have := h (i + 1) (by simpa using Nat.succ_lt_succ hi)
    simpa [Nat.add_comm, Nat.add_assoc, Nat.add_left_comm] using this
  · rintro ⟨h0, h1⟩ i hi
    cases i with
    | zero => simpa using h0
    | succ i =>
      have := h1 i (by simpa using Nat.lt_of_succ_lt_succ hi)
      simpa [Nat.add_comm, Nat.add_assoc, Nat.add_left_comm] using this

theorem posOKFrom_append (P : Nat → Nat) (n : Nat) (l1 l2 : List TimerCountdown) :
    posOKFrom P n (l1 ++ l2) ↔ posOKFrom P n l1 ∧ posOKFrom P (n + l1.length) l2 := by
  induction l1 generalizing n with
  | nil => simp [posOKFrom_nil]
  | cons a l1 ih =>
    simp only [List.cons_append, posOKFrom_cons, ih, List.length_cons]
    constructor
    · rintro ⟨h0, h1, h2⟩
      exact ⟨⟨h0, h1⟩, by
        have : n + 1 + l1.length = n + (l1.length + 1) := by omega
        simpa [this] using h2⟩
    · rintro ⟨⟨h0, h1⟩, h2⟩
      refine ⟨h0, h1, ?_⟩
      have : n + 1 + l1.length = n + (l1.length + 1) := by omega
      simpa [this] using h2

theorem posOKFrom_updFn_not_mem (P : Nat → Nat) (n : Nat) (l : List TimerCountdown)
    (u v : Nat) (hu : u ∉ l.map TimerCountdown.timer) :
    posOKFrom (updFn P u v) n l ↔ posOKFrom P n l := by
  induction l generalizing n with
  | nil => simp [posOKFrom_nil]
  | cons a l ih =>
    simp only [List.map_cons, List.mem_cons, not_or] at hu
    rw [posOKFrom_cons, posOKFrom_cons, ih (n + 1) hu.2,
      updFn_other P u v a.timer (Ne.symm hu.1)]

/-! Shape of the forward shuffle: starting from the queue `A ++ x :: B` with
the carried entry `t` conceptually occupying the slot of `x`, the loop splits
the prefix as `A = A1 ++ A2` and produces `A1 ++ t :: (A2 ++ B)`, where every
entry it walked past (`A2`) has a strictly larger countdown and the entry it
stopped behind (the last of `A1`, if any) has a countdown at most that of
`t`. -/

theorem shuffleForwardLoop_shape (t : TimerCountdown) (A : List TimerCountdown) :
    ∀ (x : TimerCountdown) (B : List TimerCountdown) (P : Nat → Nat),
      ∃ A1 A2 : List TimerCountdown, A = A1 ++ A2 ∧
        (shuffleForwardLoop t A.length (A ++ x :: B, P)).1 = A1 ++ t :: (A2 ++ B) ∧
        (∀ a ∈ A2, t.countdownMs < a.countdownMs) ∧
        (∀ a, A1.getLast? = some a → a.countdownMs ≤ t.countdownMs) := by
  induction A using List.reverseRecOn with
  | nil =>
    intro x B P
    exact ⟨[], [], rfl, by simp [shuffleForwardLoop], by simp, by simp⟩
  | append_singleton A0 a ih =>
    intro x B P
    have hlen : (A0 ++ [a]).length = A0.length + 1 := by simp
    have hlist : (A0 ++ [a]) ++ x :: B = A0 ++ a :: (x :: B) := by simp
    rw [hlen]
    simp only [shuffleForwardLoop]
    rw [hlist, getD_append_length A0 a (x :: B)]
    by_cases hc : a.countdownMs ≤ t.countdownMs
    · rw [if_pos hc]
      refine ⟨A0 ++ [a], [], by simp, ?_, by simp, ?_⟩
      · have : (A0 ++ a :: (x :: B)).set (A0.length + 1) t = (A0 ++ [a]) ++ t :: B := by
          have h2 : A0 ++ a :: (x :: B) = (A0 ++ [a]) ++ x :: B := by simp
          rw [h2, show A0.length + 1 = (A0 ++ [a]).length by simp,
            set_at_length (A0 ++ [a]) x t B]
        simp only [this]
        simp
      · intro y hy
        simp only [List.getLast?_concat] at hy
        cases hy; exact hc
    · rw [if_neg hc]
      have hset : (A0 ++ a :: (x :: B)).set (A0.length + 1) a = A0 ++ a :: (a :: B) := by
        have h2 : A0 ++ a :: (x :: B) = (A0 ++ [a]) ++ x :: B := by simp
        rw [h2, show A0.length + 1 = (A0 ++ [a]).length by simp,
          set_at_length (A0 ++ [a]) x a B]
        simp
      rw [hset]
      obtain ⟨A1, A2, hA, hshape, hA2, hA1⟩ := ih a (a :: B) (updFn P a.timer (A0.length + 1))
      refine ⟨A1, A2 ++ [a], ?_, ?_, ?_, hA1⟩
      · rw [← List.append_assoc, ← hA]
      · rw [hshape]; simp
      · intro y hy
        rcases List.mem_append.mp hy with h | h
        · exact hA2 y h
        · simp only [List.mem_singleton] at h
          subst h
          exact lt_of_not_le hc

/-- Distinctness bookkeeping for one step of either shuffle loop: from the
handle-distinctness of the conceptual queue `A0 ++ [a] ++ t :: B` extract the
pairwise facts the step needs, and the distinctness of the conceptual queue
with `a` and `t` swapped, which feeds the induction hypothesis. -/
theorem nodup_swap_facts (A0 : List TimerCountdown) (a t : TimerCountdown)
    (B : List TimerCountdown)
    (hnd : ((A0 ++ [a] ++ t :: B).map TimerCountdown.timer).Nodup) :
    t.timer ∉ A0.map TimerCountdown.timer ∧ t.timer ≠ a.timer ∧
      t.timer ∉ B.map TimerCountdown.timer ∧ a.timer ∉ A0.map TimerCountdown.timer ∧
      a.timer ∉ B.map TimerCountdown.timer ∧
      ((A0 ++ t :: (a :: B)).map TimerCountdown.timer).Nodup := by
  have hp : (A0 ++ [a] ++ t :: B).Perm (t :: a :: (A0 ++ B)) := by
    have h1 : (A0 ++ [a] ++ t :: B) = A0 ++ (a :: t :: B) := by simp
    rw [h1]
    refine List.Perm.trans List.perm_append_comm ?_
    simp only [List.cons_append]
    refine List.Perm.trans (List.Perm.swap t a (B ++ A0)) ?_
    exact List.Perm.cons t (List.Perm.cons a List.perm_append_comm)
  have hp2 : (A0 ++ t :: (a :: B)).Perm (t :: a :: (A0 ++ B)) := by
    refine List.Perm.trans List.perm_append_comm ?_
    simp only [List.cons_append]
    refine List.Perm.cons t ?_
    exact List.Perm.cons a List.perm_append_comm
  have hnd1 : ((t :: a :: (A0 ++ B)).map TimerCountdown.timer).Nodup :=
    (hp.map TimerCountdown.timer).nodup_iff.mp hnd
  have hnd6 : ((A0 ++ t :: (a :: B)).map TimerCountdown.timer).Nodup :=
    (hp2.map TimerCountdown.timer).nodup_iff.mpr hnd1
  simp only [List.map_cons, List.map_append, List.nodup_cons, List.mem_cons,
    List.mem_append, not_or] at hnd1
  exact ⟨hnd1.1.2.1, hnd1.1.1, hnd1.1.2.2, hnd1.2.1.1, hnd1.2.1.2, hnd6⟩

/-- Positions after the forward shuffle: if every slot other than the hole at
`A.length` records its true index, and the handles of the conceptual queue
`A ++ t :: B` are pairwise distinct, then after the loop every slot records
its true index. -/
theorem shuffleForwardLoop_posOK (t : TimerCountdown) (A : List TimerCountdown) :
    ∀ (x : TimerCountdown) (B : List TimerCountdown) (P : Nat → Nat),
      posOKFrom P 0 A →
      posOKFrom P (A.length + 1) B →
      ((A ++ t :: B).map TimerCountdown.timer).Nodup →
      posOKFrom (shuffleForwardLoop t A.length (A ++ x :: B, P)).2 0
        (shuffleForwardLoop t A.length (A ++ x :: B, P)).1 := by
  induction A using List.reverseRecOn with
  | nil =>
    intro x B P hA hB hnd
    simp only [shuffleForwardLoop, List.nil_append, List.set_cons_zero]
    have htB : t.timer ∉ B.map TimerCountdown.timer := by
      have h := hnd
      simp only [List.nil_append, List.map_cons, List.nodup_cons] at h
      exact h.1
    rw [posOKFrom_cons]
    refine ⟨by simpa using updFn_same P t.timer 0, ?_⟩
    rw [posOKFrom_updFn_not_mem P 1 B t.timer 0 htB]
    simpa using hB
  | append_singleton A0 a ih =>
    intro x B P hA hB hnd
    obtain ⟨htA0, hta, htB, haA0, haB, hndSwap⟩ := nodup_swap_facts A0 a t B hnd
    have hlen : (A0 ++ [a]).length = A0.length + 1 := by simp
    have hlist : (A0 ++ [a]) ++ x :: B = A0 ++ a :: (x :: B) := by simp
    rw [hlen, hlist]
    simp only [shuffleForwardLoop]
    rw [getD_append_length A0 a (x :: B)]
    rw [posOKFrom_append, posOKFrom_cons] at hA
    rw [hlen] at hB
    by_cases hc : a.countdownMs ≤ t.countdownMs
    · rw [if_pos hc]
      have hset : (A0 ++ a :: (x :: B)).set (A0.length + 1) t = A0 ++ a :: (t :: B) := by
        have h2 : A0 ++ a :: (x :: B) = (A0 ++ [a]) ++ x :: B := by simp
        rw [h2, show A0.length + 1 = (A0 ++ [a]).length by simp,
          set_at_length (A0 ++ [a]) x t B]
        simp
      simp only [hset]
      rw [posOKFrom_append, posOKFrom_cons, posOKFrom_cons]
      refine ⟨?_, ?_, ?_, ?_⟩
      · rw [posOKFrom_updFn_not_mem _ _ _ _ _ htA0]; exact hA.1
      · rw [updFn_other _ _ _ _ (fun h => hta h.symm)]; exact hA.2.1
      · simpa [Nat.zero_add] using updFn_same P t.timer (A0.length + 1)
      · rw [posOKFrom_updFn_not_mem _ _ _ _ _ htB]
        have : 0 + A0.length + 1 + 1 = A0.length + 1 + 1 := by omega
        rw [this]; exact hB
    · rw [if_neg hc]
      have hset : (A0 ++ a :: (x :: B)).set (A0.length + 1) a = A0 ++ a :: (a :: B) := by
        have h2 : A0 ++ a :: (x :: B) = (A0 ++ [a]) ++ x :: B := by simp
        rw [h2, show A0.length + 1 = (A0 ++ [a]).length by simp,
          set_at_length (A0 ++ [a]) x a B]
        simp
      rw [hset]
      apply ih a (a :: B) (updFn P a.timer (A0.length + 1))
      · rw [posOKFrom_updFn_not_mem _ _ _ _ _ haA0]; exact hA.1
      · rw [posOKFrom_cons]
        refine ⟨by simpa using updFn_same P a.timer (A0.length + 1), ?_⟩
        rw [posOKFrom_updFn_not_mem _ _ _ _ _ haB]
        have : A0.length + 1 + 1 = A0.length + 1 + 1 := rfl
        exact hB
      · exact hndSwap

/-- Shape of the backward shuffle: starting from the queue `A ++ x :: B` with
the carried entry `t` conceptually occupying the slot of `x`, the loop splits
the suffix as `B = B1 ++ B2` and produces `(A ++ B1) ++ t :: B2`, where every
entry it walked past (`B1`) has a strictly smaller countdown and the entry it
stopped in front of (the head of `B2`, if any) has a countdown at least that
of `t`. -/
theorem shuffleBackLoop_shape (t : TimerCountdown) (B : List TimerCountdown) :
    ∀ (A : List TimerCountdown) (x : TimerCountdown) (P : Nat → Nat),
      ∃ B1 B2 : List TimerCountdown, B = B1 ++ B2 ∧
        (shuffleBackLoop (A.length + B.length + 1) t (A ++ x :: B, P) A.length).1
          = (A ++ B1) ++ t :: B2 ∧
        (∀ b ∈ B1, b.countdownMs < t.countdownMs) ∧
        (∀ b, B2.head? = some b → t.countdownMs ≤ b.countdownMs) := by
  induction B with
  | nil =>
    intro A x P
    refine ⟨[], [], rfl, ?_, by simp, by simp⟩
    rw [shuffleBackLoop_eq, if_neg (by simp)]
    rw [show (A ++ x :: ([] : List TimerCountdown), P).1.set A.length t
        = A ++ t :: [] from set_at_length A x t []]
    simp
  | cons b B0 ih =>
    intro A x P
    rw [shuffleBackLoop_eq, if_pos (by simp only [List.length_cons]; omega)]
    simp only []
    rw [show (A ++ x :: b :: B0, P).1.getD (A.length + 1) default = b from
      getD_append_length_succ A x b B0]
    by_cases hc : t.countdownMs ≤ b.countdownMs
    · rw [if_pos hc]
      refine ⟨[], b :: B0, by simp, ?_, by simp, ?_⟩
      · rw [show (A ++ x :: b :: B0, P).1.set A.length t = A ++ t :: (b :: B0) from
          set_at_length A x t (b :: B0)]
        simp
      · intro y hy
        simp only [List.head?_cons, Option.some.injEq] at hy
        cases hy; exact hc
    · rw [if_neg hc]
      rw [show (A ++ x :: b :: B0, P).1.set A.length b = A ++ b :: (b :: B0) from
        set_at_length A x b (b :: B0)]
      have hnum : A.length + (b :: B0).length + 1 = (A ++ [b]).length + B0.length + 1 := by
        simp only [List.length_cons, List.length_append, List.length_singleton,
          List.length_nil]
        omega
      have hlist : A ++ b :: (b :: B0) = (A ++ [b]) ++ b :: B0 := by simp
      have hpos : A.length + 1 = (A ++ [b]).length := by simp
      rw [hnum, hlist, hpos]
      obtain ⟨B1, B2, hB0, hshape, hlt, hhead⟩ := ih (A ++ [b]) b (updFn P b.timer A.length)
      refine ⟨b :: B1, B2, by simp [hB0], ?_, ?_, hhead⟩
      · rw [hshape]; simp
      · intro y hy
        rcases List.mem_cons.mp hy with h | h
        · subst h; exact lt_of_not_le hc
        · exact hlt y h

/-- Positions after the backward shuffle, symmetric to
`shuffleForwardLoop_posOK`. -/
theorem shuffleBackLoop_posOK (t : TimerCountdown) (B : List TimerCountdown) :
    ∀ (A : List TimerCountdown) (x : TimerCountdown) (P : Nat → Nat),
      posOKFrom P 0 A →
      posOKFrom P (A.length + 1) B →
      ((A ++ t :: B).map TimerCountdown.timer).Nodup →
      posOKFrom (shuffleBackLoop (A.length + B.length + 1) t (A ++ x :: B, P) A.length).2 0
        (shuffleBackLoop (A.length + B.length + 1) t (A ++ x :: B, P) A.length).1 := by
  induction B with
  | nil =>
    intro A x P hA hB hnd
    rw [shuffleBackLoop_eq, if_neg (by simp)]
    simp only []
    rw [show (A ++ x :: ([] : List TimerCountdown), P).1.set A.length t
        = A ++ t :: [] from set_at_length A x t []]
    have htA : t.timer ∉ A.map TimerCountdown.timer := by
      have h := hnd
      rw [List.map_append, List.nodup_append] at h
      exact fun hm => h.2.2 hm (by simp)
    rw [posOKFrom_append, posOKFrom_cons]
    refine ⟨?_, ?_, posOKFrom_nil _ _⟩
    · rw [posOKFrom_updFn_not_mem _ _ _ _ _ htA]; exact hA
    · simpa using updFn_same P t.timer A.length
  | cons b B0 ih =>
    intro A x P hA hB hnd
    obtain ⟨hbA, hbt, hbB0, htA, htB0, hndSwap⟩ := nodup_swap_facts A t b B0 (by
      have h1 : A ++ [t] ++ b :: B0 = A ++ t :: (b :: B0) := by simp
      rw [h1]; exact hnd)
    rw [posOKFrom_cons] at hB
    rw [shuffleBackLoop_eq, if_pos (by simp only [List.length_cons]; omega)]
    simp only []
    rw [show (A ++ x :: b :: B0, P).1.getD (A.length + 1) default = b from
      getD_append_length_succ A x b B0]
    by_cases hc : t.countdownMs ≤ b.countdownMs
    · rw [if_pos hc]
      simp only []
      rw [show (A ++ x :: b :: B0, P).1.set A.length t = A ++ t :: (b :: B0) from
        set_at_length A x t (b :: B0)]
      rw [posOKFrom_append, posOKFrom_cons, posOKFrom_cons]
      refine ⟨?_, ?_, ?_, ?_⟩
      · rw [posOKFrom_updFn_not_mem _ _ _ _ _ htA]; exact hA
      · simpa using updFn_same P t.timer A.length
      · rw [updFn_other _ _ _ _ hbt]
        simpa using hB.1
      · rw [posOKFrom_updFn_not_mem _ _ _ _ _ htB0]
        have h2 : 0 + A.length + 1 + 1 = A.length + 1 + 1 := by omega
        rw [h2]; exact hB.2
    · rw [if_neg hc]
      rw [show (A ++ x :: b :: B0, P).1.set A.length b = A ++ b :: (b :: B0) from
        set_at_length A x b (b :: B0)]
      have hnum : A.length + (b :: B0).length + 1 = (A ++ [b]).length + B0.length + 1 := by
        simp only [List.length_cons, List.length_append, List.length_singleton,
          List.length_nil]
        omega
      have hlist : A ++ b :: (b :: B0) = (A ++ [b]) ++ b :: B0 := by simp
      have hpos : A.length + 1 = (A ++ [b]).length := by simp
      rw [hnum, hlist, hpos]
      apply ih (A ++ [b]) b (updFn P b.timer A.length)
      · rw [posOKFrom_append, posOKFrom_cons]
        refine ⟨?_, ?_, posOKFrom_nil _ _⟩
        · rw [posOKFrom_updFn_not_mem _ _ _ _ _ hbA]; exact hA
        · simpa using updFn_same P b.timer A.length
      · rw [show (A ++ [b]).length + 1 = A.length + 1 + 1 by simp]
        rw [posOKFrom_updFn_not_mem _ _ _ _ _ hbB0]
        exact hB.2
      · have h3 : (A ++ [b]) ++ t :: B0 = A ++ b :: (t :: B0) := by simp
        rw [h3]; exact hndSwap

/-- Effect of the shifting loop of `removeTimer` on the queue `A ++ x :: B`
with the doomed entry `x` at index `A.length`: the suffix `B` moves one slot
down (positions updated), the last slot keeps a stale duplicate that the
subsequent `pop_back` drops, and every surviving slot records its true
index. -/
theorem removeShiftLoop_spec (B : List TimerCountdown) :
    ∀ (A : List TimerCountdown) (x : TimerCountdown) (P : Nat → Nat),
      posOKFrom P 0 A →
      posOKFrom P (A.length + 1) B →
      ((A ++ B).map TimerCountdown.timer).Nodup →
      ∃ y, (removeShiftLoop (A.length + B.length) (A ++ x :: B, P) A.length).1
          = (A ++ B) ++ [y] ∧
        posOKFrom (removeShiftLoop (A.length + B.length) (A ++ x :: B, P) A.length).2
          0 (A ++ B) := by
  induction B with
  | nil =>
    intro A x P hA hB hnd
    rw [removeShiftLoop_eq, if_neg (by simp)]
    exact ⟨x, by simp, by simpa using hA⟩
  | cons b B0 ih =>
    intro A x P hA hB hnd
    have hndf := hnd
    rw [List.map_append, List.nodup_append] at hndf
    have hbA : b.timer ∉ A.map TimerCountdown.timer := by
      intro hm
      exact hndf.2.2 hm (by simp)
    have hbB0 : b.timer ∉ B0.map TimerCountdown.timer := by
      have h := hndf.2.1
      simp only [List.map_cons, List.nodup_cons] at h
      exact h.1
    rw [posOKFrom_cons] at hB
    rw [removeShiftLoop_eq, if_pos (by simp only [List.length_cons]; omega)]
    simp only []
    rw [show (A ++ x :: b :: B0, P).1.getD (A.length + 1) default = b from
      getD_append_length_succ A x b B0]
    rw [show (A ++ x :: b :: B0, P).1.set A.length b = A ++ b :: (b :: B0) from
      set_at_length A x b (b :: B0)]
    have hnum : A.length + (b :: B0).length = (A ++ [b]).length + B0.length := by
      simp only [List.length_cons, List.length_append, List.length_singleton,
        List.length_nil]
      omega
    have hlist : A ++ b :: (b :: B0) = (A ++ [b]) ++ b :: B0 := by simp
    have hpos : A.length + 1 = (A ++ [b]).length := by simp
    rw [hnum, hlist, hpos]
    obtain ⟨y, hy1, hy2⟩ := ih (A ++ [b]) b (updFn P b.timer A.length) (by
        rw [posOKFrom_append, posOKFrom_cons]
        refine ⟨?_, ?_, posOKFrom_nil _ _⟩
        · rw [posOKFrom_updFn_not_mem _ _ _ _ _ hbA]; exact hA
        · simpa using updFn_same P b.timer A.length)
      (by
        rw [show (A ++ [b]).length + 1 = A.length + 1 + 1 by simp]
        rw [posOKFrom_updFn_not_mem _ _ _ _ _ hbB0]
        exact hB.2)
      (by
        rw [show (A ++ [b]) ++ B0 = A ++ b :: B0 by simp]
        exact hnd)
    refine ⟨y, ?_, ?_⟩
    · rw [hy1]; simp
    · rw [show A ++ b :: B0 = (A ++ [b]) ++ B0 by simp]
      exact hy2

/-- Entries of a sorted segment are bounded below by its head. -/
theorem sorted_head_le (l : List TimerCountdown) (hs : sortedByCountdown l)
    (b : TimerCountdown) (hb : b ∈ l) (h : TimerCountdown) (hh : l.head? = some h) :
    h.countdownMs ≤ b.countdownMs := by
  cases l with
  | nil => simp at hb
  | cons a rest =>
    simp only [List.head?_cons, Option.some.injEq] at hh
    subst hh
    rcases List.mem_cons.mp hb with h | h
    · subst h; exact le_refl _
    · exact (List.pairwise_cons.mp hs).1 b h

/-- Entries of a sorted segment are bounded above by its last element. -/
theorem sorted_getLast_ge (A1 : List TimerCountdown) (hs : sortedByCountdown A1)
    (a : TimerCountdown) (ha : a ∈ A1) (g : TimerCountdown) (hg : A1.getLast? = some g) :
    a.countdownMs ≤ g.countdownMs := by
  induction A1 using List.reverseRecOn with
  | nil => simp at ha
  | append_singleton A0 y ih =>
    rw [List.getLast?_concat] at hg
    cases hg
    rcases List.mem_append.mp ha with h | h
    · exact (List.pairwise_append.mp hs).2.2 a h g (by simp)
    · simp only [List.mem_singleton] at h
      subst h; exact le_refl _

/-- Sortedness of the queue produced by the forward shuffle. -/
theorem sorted_forward_result (A1 A2 B : List TimerCountdown) (t : TimerCountdown)
    (hA : sortedByCountdown (A1 ++ A2)) (hB : sortedByCountdown B)
    (hA1 : ∀ a, A1.getLast? = some a → a.countdownMs ≤ t.countdownMs)
    (hA2 : ∀ a ∈ A2, t.countdownMs < a.countdownMs)
    (hAB : ∀ a ∈ A1 ++ A2, ∀ b ∈ B, a.countdownMs ≤ b.countdownMs)
    (htB : ∀ b ∈ B, t.countdownMs ≤ b.countdownMs) :
    sortedByCountdown (A1 ++ t :: (A2 ++ B)) := by
  have hparts := List.pairwise_append.mp hA
  rw [sortedByCountdown, List.pairwise_append]
  refine ⟨hparts.1, ?_, ?_⟩
  · rw [List.pairwise_cons]
    constructor
    · intro y hy
      rcases List.mem_append.mp hy with h | h
      · exact le_of_lt (hA2 y h)
      · exact htB y h
    · rw [List.pairwise_append]
      refine ⟨hparts.2.1, hB, ?_⟩
      intro a2 ha2 b hb
      exact hAB a2 (List.mem_append_right A1 ha2) b hb
  · intro a ha y hy
    rcases List.mem_cons.mp hy with h | h
    · subst h
      cases hgl : A1.getLast? with
      | none =>
        rw [List.getLast?_eq_none_iff] at hgl
        subst hgl; simp at ha
      | some g =>
        exact le_trans (sorted_getLast_ge A1 hparts.1 a ha g hgl) (hA1 g hgl)
    · rcases List.mem_append.mp h with h2 | h2
      · exact hparts.2.2 a ha y h2
      · exact hAB a (List.mem_append_left A2 ha) y h2

/-- Sortedness of the queue produced by the backward shuffle. -/
theorem sorted_back_result (A B1 B2 : List TimerCountdown) (t : TimerCountdown)
    (hA : sortedByCountdown A) (hB : sortedByCountdown (B1 ++ B2))
    (hAB : ∀ a ∈ A, ∀ b ∈ B1 ++ B2, a.countdownMs ≤ b.countdownMs)
    (hAt : ∀ a ∈ A, a.countdownMs ≤ t.countdownMs)
    (hB1 : ∀ b ∈ B1, b.countdownMs < t.countdownMs)
    (hB2 : ∀ b, B2.head? = some b → t.countdownMs ≤ b.countdownMs) :
    sortedByCountdown ((A ++ B1) ++ t :: B2) := by
  have hparts := List.pairwise_append.mp hB
  rw [sortedByCountdown, List.pairwise_append]
  refine ⟨?_, ?_, ?_⟩
  · rw [List.pairwise_append]
    refine ⟨hA, hparts.1, ?_⟩
    intro a ha b hb
    exact hAB a ha b (List.mem_append_left B2 hb)
  · rw [List.pairwise_cons]
    constructor
    · intro y hy
      cases hhd : B2.head? with
      | none =>
        rw [List.head?_eq_none_iff] at hhd
        subst hhd; simp at hy
      | some h =>
        exact le_trans (hB2 h hhd) (sorted_head_le B2 hparts.2.1 y hy h hhd)
    · exact hparts.2.1
  · intro z hz y hy
    rcases List.mem_cons.mp hy with h | h
    · subst h
      rcases List.mem_append.mp hz with h2 | h2
      · exact hAt z h2
      · exact le_of_lt (hB1 z h2)
    · rcases List.mem_append.mp hz with h2 | h2
      · exact hAB z h2 y (List.mem_append_right B1 h)
      · exact hparts.2.2 z h2 y h

/-! Unfolding helpers for the wrapper functions. -/

theorem shuffleTimerForwardInQueue_zero (s : TimerSys) :
    shuffleTimerForwardInQueue s 0 = s := by
  simp [shuffleTimerForwardInQueue]

theorem shuffleTimerForwardInQueue_eq (s : TimerSys) (pos : Nat) (h : 0 < pos) :
    shuffleTimerForwardInQueue s pos =
      { s with
        timers := (shuffleForwardLoop (s.timers.getD pos default) pos
          (s.timers, s.positionInQueue)).1
        positionInQueue := (shuffleForwardLoop (s.timers.getD pos default) pos
          (s.timers, s.positionInQueue)).2 } := by
  simp only [shuffleTimerForwardInQueue, if_pos h]

theorem shuffleTimerBackInQueue_noop (s : TimerSys) (pos : Nat)
    (h : ¬ pos < s.timers.length - 1) : shuffleTimerBackInQueue s pos = s := by
  simp only [shuffleTimerBackInQueue, if_neg h]

theorem shuffleTimerBackInQueue_eq (s : TimerSys) (pos : Nat)
    (h : pos < s.timers.length - 1) :
    shuffleTimerBackInQueue s pos =
      { s with
        timers := (shuffleBackLoop s.timers.length (s.timers.getD pos default)
          (s.timers, s.positionInQueue) pos).1
        positionInQueue := (shuffleBackLoop s.timers.length (s.timers.getD pos default)
          (s.timers, s.positionInQueue) pos).2 } := by
  simp only [shuffleTimerBackInQueue, if_pos h]

/-- Full characterisation of `addTimer` under the queue invariant and its
defensive precondition (the handle is not already queued): the invariant is
preserved, the queued handles gain exactly `t`, and no stored period
changes. -/
theorem addTimer_spec (s : TimerSys) (t : Nat) (hq : QueueInv s)
    (ht : t ∉ s.timers.map TimerCountdown.timer) :
    QueueInv (addTimer s t) ∧
      List.Perm ((addTimer s t).timers.map TimerCountdown.timer)
        (t :: s.timers.map TimerCountdown.timer) ∧
      (addTimer s t).timerPeriodMs = s.timerPeriodMs := by
  obtain ⟨hs, hnd, hposOK⟩ := hq
  by_cases hlen : s.timers.length = 0
  · have he : s.timers = [] := List.length_eq_zero.mp hlen
    have heq : addTimer s t =
        { s with
          timers := [⟨t, s.timerPeriodMs t⟩]
          positionInQueue := updFn s.positionInQueue t 0 } := by
      simp only [addTimer, he, List.nil_append, List.length_nil]
      exact shuffleTimerForwardInQueue_zero _
    rw [heq]
    refine ⟨⟨?_, ?_, ?_⟩, ?_, rfl⟩
    · simp [sortedByCountdown]
    · simp
    · rw [posOKFrom_cons]
      exact ⟨updFn_same _ _ _, posOKFrom_nil _ _⟩
    · simp [he]
  · have hpos0 : 0 < s.timers.length := Nat.pos_of_ne_zero hlen
    have hgetD : (s.timers ++ [(⟨t, s.timerPeriodMs t⟩ : TimerCountdown)]).getD
        s.timers.length default = ⟨t, s.timerPeriodMs t⟩ :=
      getD_append_length s.timers _ []
    have heq : addTimer s t =
        { s with
          timers := (shuffleForwardLoop ⟨t, s.timerPeriodMs t⟩ s.timers.length
            (s.timers ++ ⟨t, s.timerPeriodMs t⟩ :: [],
              updFn s.positionInQueue t s.timers.length)).1
          positionInQueue := (shuffleForwardLoop ⟨t, s.timerPeriodMs t⟩ s.timers.length
            (s.timers ++ ⟨t, s.timerPeriodMs t⟩ :: [],
              updFn s.positionInQueue t s.timers.length)).2 } := by
      simp only [addTimer, shuffleTimerForwardInQueue, if_pos hpos0, hgetD]
    have hndq : ((s.timers ++ (⟨t, s.timerPeriodMs t⟩ : TimerCountdown) :: []).map
        TimerCountdown.timer).Nodup := by
      rw [List.map_append, List.nodup_append]
      exact ⟨hnd, by simp, by
        intro u hu
        simp only [List.map_cons, List.map_nil, List.mem_singleton]
        intro hut
        subst hut
        exact ht hu⟩
    obtain ⟨A1, A2, hA, hshape, hA2, hA1⟩ :=
      shuffleForwardLoop_shape ⟨t, s.timerPeriodMs t⟩ s.timers ⟨t, s.timerPeriodMs t⟩ []
        (updFn s.positionInQueue t s.timers.length)
    have hposr := shuffleForwardLoop_posOK ⟨t, s.timerPeriodMs t⟩ s.timers
        ⟨t, s.timerPeriodMs t⟩ [] (updFn s.positionInQueue t s.timers.length)
        (by rw [posOKFrom_updFn_not_mem _ _ _ _ _ ht]; exact hposOK)
        (posOKFrom_nil _ _) hndq
    rw [heq]
    refine ⟨⟨?_, ?_, ?_⟩, ?_, rfl⟩
    · rw [hshape]
      refine sorted_forward_result A1 A2 [] ⟨t, s.timerPeriodMs t⟩ ?_ ?_ hA1 hA2 ?_ ?_
      · rw [← hA]; exact hs
      · exact List.Pairwise.nil
      · intro a ha b hb; simp at hb
      · intro b hb; simp at hb
    · rw [hshape]
      have hperm : (A1 ++ (⟨t, s.timerPeriodMs t⟩ : TimerCountdown) :: (A2 ++ [])).Perm
          ((⟨t, s.timerPeriodMs t⟩ : TimerCountdown) :: s.timers) := by
        refine List.Perm.trans (List.perm_middle) ?_
        rw [List.append_nil, ← hA]
      have := hperm.map TimerCountdown.timer
      simpa using (hperm.map TimerCountdown.timer).nodup_iff.mpr
        (by simpa using List.Nodup.cons (fun hmem => ht (by simpa using hmem)) hnd)
    · exact hposr
    · rw [hshape]
      have hperm : (A1 ++ (⟨t, s.timerPeriodMs t⟩ : TimerCountdown) :: (A2 ++ [])).Perm
          ((⟨t, s.timerPeriodMs t⟩ : TimerCountdown) :: s.timers) := by
        refine List.Perm.trans (List.perm_middle) ?_
        rw [List.append_nil, ← hA]
      simpa using hperm.map TimerCountdown.timer

/-! Bridging lemmas: the wrapper functions applied to an explicitly
decomposed state. -/

theorem shuffleTimerBack_mk_eq (A : List TimerCountdown) (x2 : TimerCountdown)
    (B : List TimerCountdown) (P : Nat → Nat) (F : Nat → Int) (hB : B ≠ []) :
    shuffleTimerBackInQueue ⟨A ++ x2 :: B, P, F⟩ A.length =
      ⟨(shuffleBackLoop (A.length + B.length + 1) x2 (A ++ x2 :: B, P) A.length).1,
        (shuffleBackLoop (A.length + B.length + 1) x2 (A ++ x2 :: B, P) A.length).2,
        F⟩ := by
  have hlen : (A ++ x2 :: B).length = A.length + B.length + 1 := by
    rw [List.length_append, List.length_cons]
    omega
  have hBpos : 0 < B.length := List.length_pos.mpr hB
  simp only [shuffleTimerBackInQueue]
  rw [if_pos (by rw [hlen]; omega)]
  rw [hlen, getD_append_length]

theorem shuffleTimerBack_mk_noop (A : List TimerCountdown) (x2 : TimerCountdown)
    (P : Nat → Nat) (F : Nat → Int) :
    shuffleTimerBackInQueue ⟨A ++ x2 :: [], P, F⟩ A.length = ⟨A ++ x2 :: [], P, F⟩ := by
  simp only [shuffleTimerBackInQueue]
  rw [if_neg (by
    simp only [List.length_append, List.length_cons, List.length_nil]
    omega)]

theorem shuffleTimerForward_mk_eq (A : List TimerCountdown) (x2 : TimerCountdown)
    (B : List TimerCountdown) (P : Nat → Nat) (F : Nat → Int) (hA : A ≠ []) :
    shuffleTimerForwardInQueue ⟨A ++ x2 :: B, P, F⟩ A.length =
      ⟨(shuffleForwardLoop x2 A.length (A ++ x2 :: B, P)).1,
        (shuffleForwardLoop x2 A.length (A ++ x2 :: B, P)).2, F⟩ := by
  simp only [shuffleTimerForwardInQueue]
  rw [if_pos (List.length_pos.mpr hA)]
  rw [getD_append_length]

theorem shuffleTimerForward_mk_noop (x2 : TimerCountdown) (B : List TimerCountdown)
    (P : Nat → Nat) (F : Nat → Int) :
    shuffleTimerForwardInQueue ⟨x2 :: B, P, F⟩ 0 = ⟨x2 :: B, P, F⟩ := by
  simp [shuffleTimerForwardInQueue]

/-- Decomposing the sorted-queue invariant at one slot. -/
theorem sorted_decomp (A : List TimerCountdown) (x : TimerCountdown)
    (B : List TimerCountdown) (hs : sortedByCountdown (A ++ x :: B)) :
    sortedByCountdown A ∧ sortedByCountdown B ∧
      (∀ a ∈ A, a.countdownMs ≤ x.countdownMs) ∧
      (∀ b ∈ B, x.countdownMs ≤ b.countdownMs) ∧
      (∀ a ∈ A, ∀ b ∈ B, a.countdownMs ≤ b.countdownMs) := by
  rw [sortedByCountdown, List.pairwise_append] at hs
  have hcons := List.pairwise_cons.mp hs.2.1
  exact ⟨hs.1, hcons.2, fun a ha => hs.2.2 a ha x (by simp),
    hcons.1, fun a ha b hb => hs.2.2 a ha b (by simp [hb])⟩

/-- Full characterisation of `removeTimer` under the queue invariant and its
defensive precondition (the handle is queued, at index `j`, which its
recorded position matches by the invariant): exactly that entry disappears,
later entries keep their relative order, and the invariant is preserved. -/
theorem removeTimer_spec (s : TimerSys) (t : Nat) (j : Nat) (hq : QueueInv s)
    (hj : j < s.timers.length) (ht : (s.timers.getD j default).timer = t) :
    (removeTimer s t).timers = s.timers.take j ++ s.timers.drop (j + 1) ∧
      QueueInv (removeTimer s t) ∧
      (removeTimer s t).timerPeriodMs = s.timerPeriodMs := by
  obtain ⟨hs, hnd, hposOK⟩ := hq
  have hpt : s.positionInQueue t = j := by
    have h := hposOK j hj
    rw [ht] at h
    omega
  obtain ⟨A, x, B, hdec, hlenA⟩ :
      ∃ A x B, s.timers = A ++ x :: B ∧ A.length = j :=
    ⟨s.timers.take j, s.timers.getD j default, s.timers.drop (j + 1),
      decompose_at s.timers j hj, by rw [List.length_take]; omega⟩
  have htake : s.timers.take j = A := by
    rw [hdec, ← hlenA, List.take_left A (x :: B)]
  have hdrop : s.timers.drop (j + 1) = B := by
    rw [hdec, ← hlenA]
    rw [show A.length + 1 = (A ++ [x]).length by simp]
    rw [show A ++ x :: B = (A ++ [x]) ++ B by simp]
    rw [List.drop_left (A ++ [x]) B]
  have hlast : s.timers.length - 1 = A.length + B.length := by
    rw [hdec, List.length_append, List.length_cons]
    omega
  have hs2 : sortedByCountdown (A ++ x :: B) := by rw [← hdec]; exact hs
  have hnd2 : ((A ++ x :: B).map TimerCountdown.timer).Nodup := by
    rw [← hdec]; exact hnd
  have hposOK2 : posOKFrom s.positionInQueue 0 (A ++ x :: B) := by
    rw [← hdec]; exact hposOK
  rw [posOKFrom_append, posOKFrom_cons] at hposOK2
  have hndAB : ((A ++ B).map TimerCountdown.timer).Nodup := by
    have hsub : (A ++ B).Sublist (A ++ x :: B) :=
      List.Sublist.append_left (List.sublist_cons_self x B) A
    exact List.Nodup.sublist (hsub.map TimerCountdown.timer) hnd2
  have hrm : removeTimer s t =
      { s with
        timers := (removeShiftLoop (A.length + B.length)
          (A ++ x :: B, s.positionInQueue) A.length).1.dropLast
        positionInQueue := (removeShiftLoop (A.length + B.length)
          (A ++ x :: B, s.positionInQueue) A.length).2 } := by
    simp only [removeTimer]
    rw [hpt, hlast, hdec, ← hlenA]
  obtain ⟨y, hy1, hy2⟩ := removeShiftLoop_spec B A x s.positionInQueue
    hposOK2.1 (by simpa using hposOK2.2.2) hndAB
  rw [hrm]
  refine ⟨?_, ⟨?_, ?_, ?_⟩, rfl⟩
  · rw [htake, hdrop, hy1, List.dropLast_concat]
  · rw [hy1, List.dropLast_concat]
    have hsub : (A ++ B).Sublist (A ++ x :: B) :=
      List.Sublist.append_left (List.sublist_cons_self x B) A
    exact List.Pairwise.sublist hsub hs2
  · rw [hy1, List.dropLast_concat]
    exact hndAB
  · rw [hy1, List.dropLast_concat]
    exact hy2

/-- Full characterisation of `resetTimerCounter` under the queue invariant
and its defensive precondition: the invariant is preserved, the set of queued
handles is unchanged, and no stored period changes. -/
theorem resetTimerCounter_spec (s : TimerSys) (t : Nat) (j : Nat) (hq : QueueInv s)
    (hj : j < s.timers.length) (ht : (s.timers.getD j default).timer = t) :
    QueueInv (resetTimerCounter s t) ∧
      List.Perm ((resetTimerCounter s t).timers.map TimerCountdown.timer)
        (s.timers.map TimerCountdown.timer) ∧
      (resetTimerCounter s t).timerPeriodMs = s.timerPeriodMs := by
  obtain ⟨hs, hnd, hposOK⟩ := hq
  have hpt : s.positionInQueue t = j := by
    have h := hposOK j hj
    rw [ht] at h
    omega
  obtain ⟨A, x, B, hdec, hlenA⟩ :
      ∃ A x B, s.timers = A ++ x :: B ∧ A.length = j :=
    ⟨s.timers.take j, s.timers.getD j default, s.timers.drop (j + 1),
      decompose_at s.timers j hj, by rw [List.length_take]; omega⟩
  have hxt : x.timer = t := by
    have h := ht
    rw [hdec, ← hlenA, getD_append_length] at h
    exact h
  have hgd : s.timers.getD (s.positionInQueue t) default = x := by
    rw [hpt, hdec, ← hlenA, getD_append_length]
  have hs2 : sortedByCountdown (A ++ x :: B) := by rw [← hdec]; exact hs
  have hnd2 : ((A ++ x :: B).map TimerCountdown.timer).Nodup := by
    rw [← hdec]; exact hnd
  have hposOK2 : posOKFrom s.positionInQueue 0 (A ++ x :: B) := by
    rw [← hdec]; exact hposOK
  rw [posOKFrom_append, posOKFrom_cons] at hposOK2
  obtain ⟨hsA, hsB, hAx, hxB, hABx⟩ := sorted_decomp A x B hs2
  by_cases hcmp : s.timerPeriodMs t = x.countdownMs
  · have heq : resetTimerCounter s t = s := by
      simp only [resetTimerCounter, hgd]
      rw [if_pos hcmp]
    rw [heq]
    exact ⟨⟨hs, hnd, hposOK⟩, List.Perm.refl _, rfl⟩
  · have hndX : ((A ++ (⟨x.timer, s.timerPeriodMs t⟩ : TimerCountdown) :: B).map
        TimerCountdown.timer).Nodup := by
      have hmapeq : (A ++ (⟨x.timer, s.timerPeriodMs t⟩ : TimerCountdown) :: B).map
          TimerCountdown.timer = (A ++ x :: B).map TimerCountdown.timer := by
        simp
      rw [hmapeq]; exact hnd2
    have hposX : posOKFrom s.positionInQueue 0
        (A ++ (⟨x.timer, s.timerPeriodMs t⟩ : TimerCountdown) :: B) := by
      rw [posOKFrom_append, posOKFrom_cons]
      exact ⟨hposOK2.1, hposOK2.2.1, hposOK2.2.2⟩
    have hpermX : List.Perm
        ((A ++ (⟨x.timer, s.timerPeriodMs t⟩ : TimerCountdown) :: B).map
          TimerCountdown.timer)
        (s.timers.map TimerCountdown.timer) := by
      rw [hdec]
      have hmapeq : (A ++ (⟨x.timer, s.timerPeriodMs t⟩ : TimerCountdown) :: B).map
          TimerCountdown.timer = (A ++ x :: B).map TimerCountdown.timer := by
        simp
      rw [hmapeq]
    have hrt : resetTimerCounter s t =
        if x.countdownMs < s.timerPeriodMs t then
          shuffleTimerBackInQueue
            ⟨A ++ ⟨x.timer, s.timerPeriodMs t⟩ :: B, s.positionInQueue,
              s.timerPeriodMs⟩ A.length
        else
          shuffleTimerForwardInQueue
            ⟨A ++ ⟨x.timer, s.timerPeriodMs t⟩ :: B, s.positionInQueue,
              s.timerPeriodMs⟩ A.length := by
      simp only [resetTimerCounter, hgd]
      rw [if_neg hcmp, hpt, ← hlenA]
      rw [show s.timers.set A.length ⟨x.timer, s.timerPeriodMs t⟩
          = A ++ ⟨x.timer, s.timerPeriodMs t⟩ :: B from by
        rw [hdec, set_at_length]]
    by_cases hdir : x.countdownMs < s.timerPeriodMs t
    · rw [hrt, if_pos hdir]
      by_cases hBe : B = []
      · subst hBe
        rw [shuffleTimerBack_mk_noop]
        refine ⟨⟨?_, hndX, hposX⟩, hpermX, rfl⟩
        rw [sortedByCountdown, List.pairwise_append]
        refine ⟨hsA, by simp, ?_⟩
        intro a ha y hy
        simp only [List.mem_singleton] at hy
        subst hy
        exact le_trans (hAx a ha) (le_of_lt hdir)
      · rw [shuffleTimerBack_mk_eq A _ B s.positionInQueue s.timerPeriodMs hBe]
        obtain ⟨B1, B2, hB, hshape, hB1, hB2⟩ := shuffleBackLoop_shape
          ⟨x.timer, s.timerPeriodMs t⟩ B A ⟨x.timer, s.timerPeriodMs t⟩
          s.positionInQueue
        have hposr := shuffleBackLoop_posOK ⟨x.timer, s.timerPeriodMs t⟩ B A
          ⟨x.timer, s.timerPeriodMs t⟩ s.positionInQueue hposOK2.1
          (by simpa using hposOK2.2.2) hndX
        refine ⟨⟨?_, ?_, hposr⟩, ?_, rfl⟩
        · rw [hshape]
          refine sorted_back_result A B1 B2 _ hsA (by rw [← hB]; exact hsB)
            ?_ ?_ hB1 hB2
          · intro a ha b hb
            exact hABx a ha b (by rw [hB]; exact hb)
          · intro a ha
            exact le_trans (hAx a ha) (le_of_lt hdir)
        · rw [hshape]
          have hp : ((A ++ B1) ++ (⟨x.timer, s.timerPeriodMs t⟩ : TimerCountdown)
              :: B2).Perm (A ++ ⟨x.timer, s.timerPeriodMs t⟩ :: B) := by
            refine List.Perm.trans List.perm_middle ?_
            rw [hB]
            refine List.Perm.trans ?_ List.perm_middle.symm
            rw [List.append_assoc]
          have := (hp.map TimerCountdown.timer).nodup_iff.mpr hndX
          exact this
        · rw [hshape]
          have hp : ((A ++ B1) ++ (⟨x.timer, s.timerPeriodMs t⟩ : TimerCountdown)
              :: B2).Perm (A ++ ⟨x.timer, s.timerPeriodMs t⟩ :: B) := by
            refine List.Perm.trans List.perm_middle ?_
            rw [hB]
            refine List.Perm.trans ?_ List.perm_middle.symm
            rw [List.append_assoc]
          exact List.Perm.trans (hp.map TimerCountdown.timer) hpermX
    · rw [hrt, if_neg hdir]
      have hple : s.timerPeriodMs t ≤ x.countdownMs := le_of_not_lt hdir
      by_cases hAe : A = []
      · subst hAe
        simp only [List.nil_append, List.length_nil] at hrt ⊢
        rw [shuffleTimerForward_mk_noop]
        refine ⟨⟨?_, hndX, hposX⟩, hpermX, rfl⟩
        rw [sortedByCountdown, List.pairwise_cons]
        refine ⟨?_, hsB⟩
        intro b hb
        exact le_trans hple (hxB b hb)
      · rw [shuffleTimerForward_mk_eq A _ B s.positionInQueue s.timerPeriodMs hAe]
        obtain ⟨A1, A2, hA, hshape, hA2, hA1⟩ := shuffleForwardLoop_shape
          ⟨x.timer, s.timerPeriodMs t⟩ A ⟨x.timer, s.timerPeriodMs t⟩ B
          s.positionInQueue
        have hposr := shuffleForwardLoop_posOK ⟨x.timer, s.timerPeriodMs t⟩ A
          ⟨x.timer, s.timerPeriodMs t⟩ B s.positionInQueue hposOK2.1
          (by simpa using hposOK2.2.2) hndX
        refine ⟨⟨?_, ?_, hposr⟩, ?_, rfl⟩
        · rw [hshape]
          refine sorted_forward_result A1 A2 B _ (by rw [← hA]; exact hsA) hsB
            hA1 hA2 ?_ ?_
          · intro a2 ha2 b hb
            exact hABx a2 (by rw [hA]; exact ha2) b hb
          · intro b hb
            exact le_trans hple (hxB b hb)
        · rw [hshape]
          have hp : (A1 ++ (⟨x.timer, s.timerPeriodMs t⟩ : TimerCountdown)
              :: (A2 ++ B)).Perm (A ++ ⟨x.timer, s.timerPeriodMs t⟩ :: B) := by
            refine List.Perm.trans List.perm_middle ?_
            rw [hA]
            refine List.Perm.trans ?_ List.perm_middle.symm
            rw [List.append_assoc]
          have := (hp.map TimerCountdown.timer).nodup_iff.mpr hndX
          exact this
        · rw [hshape]
          have hp : (A1 ++ (⟨x.timer, s.timerPeriodMs t⟩ : TimerCountdown)
              :: (A2 ++ B)).Perm (A ++ ⟨x.timer, s.timerPeriodMs t⟩ :: B) := by
            refine List.Perm.trans List.perm_middle ?_
            rw [hA]
            refine List.Perm.trans ?_ List.perm_middle.symm
            rw [List.append_assoc]
          exact List.Perm.trans (hp.map TimerCountdown.timer) hpermX

/-! Index and membership helpers. -/

theorem getD_mem (l : List TimerCountdown) (j : Nat) (h : j < l.length) :
    l.getD j default ∈ l := by
  induction l generalizing j with
  | nil => simp at h
  | cons a l ih =>
    cases j with
    | zero => simp
    | succ j =>
      simp only [List.getD_cons_succ]
      exact List.mem_cons_of_mem a (ih j (by
        simpa using Nat.lt_of_succ_lt_succ (by simpa using h)))

theorem exists_index_of_mem_ids (l : List TimerCountdown) (t : Nat)
    (h : t ∈ l.map TimerCountdown.timer) :
    ∃ j, j < l.length ∧ (l.getD j default).timer = t := by
  induction l with
  | nil => simp at h
  | cons a l ih =>
    simp only [List.map_cons, List.mem_cons] at h
    rcases h with h | h
    · exact ⟨0, by simp, h.symm⟩
    · obtain ⟨j, hj, hjt⟩ := ih h
      exact ⟨j + 1, by simpa using Nat.succ_lt_succ hj, by simpa using hjt⟩

/-- Client-level effect of `startTimer`: under the full invariant, the
stored period becomes `jmax (1, interval)` for every argument, the timer ends
up queued, and the invariant is preserved. -/
theorem startTimer_inv (s : TimerSys) (t : Nat) (n : Int) (h : Inv s) :
    Inv (startTimer s t n) ∧
      (startTimer s t n).timerPeriodMs t = max 1 n ∧
      t ∈ (startTimer s t n).timers.map TimerCountdown.timer := by
  obtain ⟨⟨hs, hnd, hposOK⟩, hact, hnn⟩ := h
  have hmax1 : (1 : Int) ≤ max 1 n := le_max_left 1 n
  by_cases hstop : s.timerPeriodMs t = 0
  · have heq : startTimer s t n =
        addTimer ⟨s.timers, s.positionInQueue, updFn s.timerPeriodMs t (max 1 n)⟩ t := by
      simp only [startTimer, if_pos hstop]
    have hnotmem : t ∉ s.timers.map TimerCountdown.timer := by
      intro hmem
      obtain ⟨e, he, het⟩ := List.mem_map.mp hmem
      have := (hact t).mp ⟨e, he, het⟩
      omega
    obtain ⟨hq2, hperm, hper⟩ := addTimer_spec
      ⟨s.timers, s.positionInQueue, updFn s.timerPeriodMs t (max 1 n)⟩ t
      ⟨hs, hnd, hposOK⟩ hnotmem
    have hpert : (addTimer ⟨s.timers, s.positionInQueue,
        updFn s.timerPeriodMs t (max 1 n)⟩ t).timerPeriodMs t = max 1 n := by
      rw [hper]; exact updFn_same _ _ _
    have hperu : ∀ u, u ≠ t → (addTimer ⟨s.timers, s.positionInQueue,
        updFn s.timerPeriodMs t (max 1 n)⟩ t).timerPeriodMs u = s.timerPeriodMs u := by
      intro u hut
      rw [hper]; exact updFn_other _ _ _ _ hut
    rw [heq]
    refine ⟨⟨hq2, ?_, ?_⟩, hpert, ?_⟩
    · intro u
      rw [show (∃ e ∈ (addTimer ⟨s.timers, s.positionInQueue,
            updFn s.timerPeriodMs t (max 1 n)⟩ t).timers, e.timer = u)
          ↔ u ∈ ((addTimer ⟨s.timers, s.positionInQueue,
            updFn s.timerPeriodMs t (max 1 n)⟩ t).timers.map TimerCountdown.timer)
          from (List.mem_map).symm]
      rw [hperm.mem_iff]
      by_cases hut : u = t
      · subst hut
        rw [hpert]
        simp only [List.mem_cons]
        constructor
        · intro h1; omega
        · intro h1; exact Or.inl trivial
      · rw [hperu u hut]
        simp only [List.mem_cons]
        constructor
        · rintro (h1 | h1)
          · exact absurd h1 hut
          · exact (hact u).mp (List.mem_map.mp h1)
        · intro hp
          exact Or.inr (List.mem_map.mpr ((hact u).mpr hp))
    · intro u
      by_cases hut : u = t
      · subst hut; rw [hpert]; omega
      · rw [hperu u hut]; exact hnn u
    · rw [hperm.mem_iff]
      simp
  · have hrun : 0 < s.timerPeriodMs t :=
      lt_of_le_of_ne (hnn t) (fun hh => hstop hh.symm)
    have hmem : t ∈ s.timers.map TimerCountdown.timer :=
      List.mem_map.mpr ((hact t).mpr hrun)
    obtain ⟨j, hj, hjt⟩ := exists_index_of_mem_ids s.timers t hmem
    have heq : startTimer s t n =
        resetTimerCounter ⟨s.timers, s.positionInQueue,
          updFn s.timerPeriodMs t (max 1 n)⟩ t := by
      simp only [startTimer, if_neg hstop]
    obtain ⟨hq2, hperm, hper⟩ := resetTimerCounter_spec
      ⟨s.timers, s.positionInQueue, updFn s.timerPeriodMs t (max 1 n)⟩ t j
      ⟨hs, hnd, hposOK⟩ hj hjt
    have hpert : (resetTimerCounter ⟨s.timers, s.positionInQueue,
        updFn s.timerPeriodMs t (max 1 n)⟩ t).timerPeriodMs t = max 1 n := by
      rw [hper]; exact updFn_same _ _ _
    have hperu : ∀ u, u ≠ t → (resetTimerCounter ⟨s.timers, s.positionInQueue,
        updFn s.timerPeriodMs t (max 1 n)⟩ t).timerPeriodMs u = s.timerPeriodMs u := by
      intro u hut
      rw [hper]; exact updFn_other _ _ _ _ hut
    rw [heq]
    refine ⟨⟨hq2, ?_, ?_⟩, hpert, ?_⟩
    · intro u
      rw [show (∃ e ∈ (resetTimerCounter ⟨s.timers, s.positionInQueue,
            updFn s.timerPeriodMs t (max 1 n)⟩ t).timers, e.timer = u)
          ↔ u ∈ ((resetTimerCounter ⟨s.timers, s.positionInQueue,
            updFn s.timerPeriodMs t (max 1 n)⟩ t).timers.map TimerCountdown.timer)
          from (List.mem_map).symm]
      rw [hperm.mem_iff]
      by_cases hut : u = t
      · subst hut
        rw [hpert]
        constructor
        · intro h1; omega
        · intro h1; exact hmem
      · rw [hperu u hut]
        constructor
        · intro h1; exact (hact u).mp (List.mem_map.mp h1)
        · intro hp; exact List.mem_map.mpr ((hact u).mpr hp)
    · intro u
      by_cases hut : u = t
      · subst hut; rw [hpert]; omega
      · rw [hperu u hut]; exact hnn u
    · rw [hperm.mem_iff]
      exact hmem


/-- Client-level effect of `stopTimer`: under the full invariant, the timer
ends with period 0 and out of the queue, and the invariant is preserved. -/
theorem stopTimer_inv (s : TimerSys) (t : Nat) (h : Inv s) :
    Inv (stopTimer s t) ∧
      (stopTimer s t).timerPeriodMs t = 0 ∧
      t ∉ (stopTimer s t).timers.map TimerCountdown.timer := by
  obtain ⟨⟨hs, hnd, hposOK⟩, hact, hnn⟩ := h
  by_cases hrun : 0 < s.timerPeriodMs t
  · have hmem : t ∈ s.timers.map TimerCountdown.timer :=
      List.mem_map.mpr ((hact t).mpr hrun)
    obtain ⟨j, hj, hjt⟩ := exists_index_of_mem_ids s.timers t hmem
    obtain ⟨hrm1, hrm2, hrm3⟩ := removeTimer_spec s t j ⟨hs, hnd, hposOK⟩ hj hjt
    have heq : stopTimer s t =
        { removeTimer s t with
          timerPeriodMs := updFn (removeTimer s t).timerPeriodMs t 0 } := by
      simp only [stopTimer, if_pos hrun]
    have hsplit : s.timers.map TimerCountdown.timer
        = (s.timers.take j).map TimerCountdown.timer
          ++ t :: (s.timers.drop (j + 1)).map TimerCountdown.timer := by
      conv =>
        lhs
        rw [decompose_at s.timers j hj]
      rw [List.map_append, List.map_cons, hjt]
    have htout : t ∉ ((s.timers.take j).map TimerCountdown.timer
        ++ (s.timers.drop (j + 1)).map TimerCountdown.timer) := by
      have hnd3 : ((s.timers.take j).map TimerCountdown.timer
          ++ t :: (s.timers.drop (j + 1)).map TimerCountdown.timer).Nodup := by
        rw [← hsplit]; exact hnd
      rw [List.nodup_append] at hnd3
      intro hmem2
      rcases List.mem_append.mp hmem2 with h1 | h1
      · exact hnd3.2.2 h1 (by simp)
      · have := hnd3.2.1
        simp only [List.nodup_cons] at this
        exact this.1 h1
    have hidsafter : (stopTimer s t).timers.map TimerCountdown.timer
        = (s.timers.take j).map TimerCountdown.timer
          ++ (s.timers.drop (j + 1)).map TimerCountdown.timer := by
      rw [heq]
      show ((removeTimer s t).timers.map TimerCountdown.timer) = _
      rw [hrm1, List.map_append]
    refine ⟨⟨?_, ?_, ?_⟩, ?_, ?_⟩
    · rw [heq]; exact hrm2
    · intro u
      rw [show (∃ e ∈ (stopTimer s t).timers, e.timer = u)
          ↔ u ∈ ((stopTimer s t).timers.map TimerCountdown.timer)
          from (List.mem_map).symm]
      rw [hidsafter]
      have hperiods : (stopTimer s t).timerPeriodMs
          = updFn (removeTimer s t).timerPeriodMs t 0 := by
        rw [heq]
      rw [hperiods]
      by_cases hut : u = t
      · subst hut
        rw [updFn_same]
        constructor
        · intro hmem2; exact absurd hmem2 htout
        · intro hp; omega
      · rw [updFn_other _ _ _ _ hut, hrm3]
        have hiff : u ∈ ((s.timers.take j).map TimerCountdown.timer
            ++ (s.timers.drop (j + 1)).map TimerCountdown.timer)
            ↔ u ∈ s.timers.map TimerCountdown.timer := by
          rw [hsplit]
          simp only [List.mem_append, List.mem_cons]
          constructor
          · rintro (h1 | h1)
            · exact Or.inl h1
            · exact Or.inr (Or.inr h1)
          · rintro (h1 | h1 | h1)
            · exact Or.inl h1
            · exact absurd h1 hut
            · exact Or.inr h1
        rw [hiff]
        constructor
        · intro h1; exact (hact u).mp (List.mem_map.mp h1)
        · intro hp; exact List.mem_map.mpr ((hact u).mpr hp)
    · intro u
      have hperiods : (stopTimer s t).timerPeriodMs
          = updFn (removeTimer s t).timerPeriodMs t 0 := by
        rw [heq]
      rw [hperiods]
      by_cases hut : u = t
      · subst hut; rw [updFn_same]
      · rw [updFn_other _ _ _ _ hut, hrm3]; exact hnn u
    · have hperiods : (stopTimer s t).timerPeriodMs
          = updFn (removeTimer s t).timerPeriodMs t 0 := by
        rw [heq]
      rw [hperiods]
      exact updFn_same _ _ _
    · rw [hidsafter]
      exact htout
  · have heq : stopTimer s t = s := by
      simp only [stopTimer, if_neg hrun]
    rw [heq]
    refine ⟨⟨⟨hs, hnd, hposOK⟩, hact, hnn⟩, ?_, ?_⟩
    · have := hnn t; omega
    · intro hmem
      have := (hact t).mp (List.mem_map.mp hmem)
      omega

/-! Lemmas about the pop-and-reinsert step and the due-timer loop of
`callTimers`. -/

theorem shuffleTimerBackInQueue_period (s : TimerSys) (pos : Nat) :
    (shuffleTimerBackInQueue s pos).timerPeriodMs = s.timerPeriodMs := by
  simp only [shuffleTimerBackInQueue]
  split
  · rfl
  · rfl

theorem shuffleBack_front_perm (x2 : TimerCountdown) (B : List TimerCountdown)
    (P : Nat → Nat) (F : Nat → Int) :
    List.Perm ((shuffleTimerBackInQueue ⟨x2 :: B, P, F⟩ 0).timers.map
      TimerCountdown.timer) ((x2 :: B).map TimerCountdown.timer) := by
  by_cases hBe : B = []
  · subst hBe
    rw [show shuffleTimerBackInQueue ⟨[x2], P, F⟩ 0 = ⟨[x2], P, F⟩ from by
      simp [shuffleTimerBackInQueue]]
  · have heq : shuffleTimerBackInQueue ⟨x2 :: B, P, F⟩ 0 =
        ⟨(shuffleBackLoop (([] : List TimerCountdown).length + B.length + 1) x2
            (([] : List TimerCountdown) ++ x2 :: B, P)
            ([] : List TimerCountdown).length).1,
          (shuffleBackLoop (([] : List TimerCountdown).length + B.length + 1) x2
            (([] : List TimerCountdown) ++ x2 :: B, P)
            ([] : List TimerCountdown).length).2, F⟩ :=
      shuffleTimerBack_mk_eq [] x2 B P F hBe
    rw [heq]
    obtain ⟨B1, B2, hB, hshape, hB1, hB2⟩ := shuffleBackLoop_shape x2 B [] x2 P
    rw [hshape]
    have hp : ((([] : List TimerCountdown) ++ B1) ++ x2 :: B2).Perm (x2 :: B) := by
      refine List.Perm.trans List.perm_middle ?_
      rw [List.nil_append, ← hB]
    exact hp.map TimerCountdown.timer

/-- Invariant preservation for the pop-and-reinsert step of `callTimers`:
the front entry (whatever countdown was just written into it) is shuffled
back into place, re-establishing the full queue invariant. -/
theorem shuffleBack_front_spec (x2 : TimerCountdown) (B : List TimerCountdown)
    (P : Nat → Nat) (F : Nat → Int)
    (hsB : sortedByCountdown B)
    (hpos : posOKFrom P 0 (x2 :: B))
    (hnd : ((x2 :: B).map TimerCountdown.timer).Nodup) :
    QueueInv (shuffleTimerBackInQueue ⟨x2 :: B, P, F⟩ 0) := by
  rw [posOKFrom_cons] at hpos
  by_cases hBe : B = []
  · subst hBe
    rw [show shuffleTimerBackInQueue ⟨[x2], P, F⟩ 0 = ⟨[x2], P, F⟩ from by
      simp [shuffleTimerBackInQueue]]
    refine ⟨by simp [sortedByCountdown], hnd, ?_⟩
    rw [posOKFrom_cons]
    exact ⟨hpos.1, posOKFrom_nil _ _⟩
  · have heq : shuffleTimerBackInQueue ⟨x2 :: B, P, F⟩ 0 =
        ⟨(shuffleBackLoop (([] : List TimerCountdown).length + B.length + 1) x2
            (([] : List TimerCountdown) ++ x2 :: B, P)
            ([] : List TimerCountdown).length).1,
          (shuffleBackLoop (([] : List TimerCountdown).length + B.length + 1) x2
            (([] : List TimerCountdown) ++ x2 :: B, P)
            ([] : List TimerCountdown).length).2, F⟩ :=
      shuffleTimerBack_mk_eq [] x2 B P F hBe
    rw [heq]
    obtain ⟨B1, B2, hB, hshape, hB1, hB2⟩ := shuffleBackLoop_shape x2 B [] x2 P
    have hndpad : ((([] : List TimerCountdown) ++ x2 :: B).map
        TimerCountdown.timer).Nodup := hnd
    have hposr := shuffleBackLoop_posOK x2 B [] x2 P (posOKFrom_nil _ _)
      (by exact hpos.2) hndpad
    refine ⟨?_, ?_, hposr⟩
    · rw [hshape]
      refine sorted_back_result [] B1 B2 x2 List.Pairwise.nil
        (by rw [← hB]; exact hsB) ?_ ?_ hB1 hB2
      · intro a ha; simp at ha
      · intro a ha; simp at ha
    · rw [hshape]
      have hp : ((([] : List TimerCountdown) ++ B1) ++ x2 :: B2).Perm (x2 :: B) := by
        refine List.Perm.trans List.perm_middle ?_
        rw [List.nil_append, ← hB]
      exact (hp.map TimerCountdown.timer).nodup_iff.mpr hnd

/-- The due-timer loop preserves the queue invariant, permutes no handle in
or out of the queue, and leaves every stored period unchanged — for any
environment, deadline, clock and fuel. -/
theorem callTimersLoop_spec (env : CallEnv) (timeout : Nat) (fuel : Nat) :
    ∀ (s : TimerSys) (now : Nat),
      QueueInv s →
      QueueInv (callTimersLoop env timeout fuel s now).1 ∧
        List.Perm ((callTimersLoop env timeout fuel s now).1.timers.map
          TimerCountdown.timer) (s.timers.map TimerCountdown.timer) ∧
        (callTimersLoop env timeout fuel s now).1.timerPeriodMs = s.timerPeriodMs := by
  induction fuel with
  | zero =>
    intro s now hq
    exact ⟨hq, List.Perm.refl _, rfl⟩
  | succ fuel ih =>
    intro s now hq
    obtain ⟨hs, hnd, hposOK⟩ := hq
    cases hts : s.timers with
    | nil =>
      have h0 : callTimersLoop env timeout (fuel + 1) s now = (s, [], now) := by
        simp only [callTimersLoop, hts]
      have hperm0 : List.Perm (s.timers.map TimerCountdown.timer)
          (([] : List TimerCountdown).map TimerCountdown.timer) := by
        rw [hts]
      rw [h0]
      exact ⟨⟨hs, hnd, hposOK⟩, hperm0, rfl⟩
    | cons first rest =>
      by_cases hdue : 0 < first.countdownMs
      · have h0 : callTimersLoop env timeout (fuel + 1) s now = (s, [], now) := by
          simp only [callTimersLoop, hts, if_pos hdue]
        have hperm0 : List.Perm (s.timers.map TimerCountdown.timer)
            ((first :: rest).map TimerCountdown.timer) := by
          rw [hts]
        rw [h0]
        exact ⟨⟨hs, hnd, hposOK⟩, hperm0, rfl⟩
      · have hsB : sortedByCountdown rest := by
          rw [hts] at hs
          exact (List.pairwise_cons.mp hs).2
        have hpos2 : posOKFrom s.positionInQueue 0
            ((⟨first.timer, s.timerPeriodMs first.timer⟩ : TimerCountdown) :: rest) := by
          rw [hts, posOKFrom_cons] at hposOK
          rw [posOKFrom_cons]
          exact ⟨hposOK.1, hposOK.2⟩
        have hnd2 : (((⟨first.timer, s.timerPeriodMs first.timer⟩ : TimerCountdown)
            :: rest).map TimerCountdown.timer).Nodup := by
          rw [hts] at hnd
          simpa using hnd
        have hstep := shuffleBack_front_spec
          ⟨first.timer, s.timerPeriodMs first.timer⟩ rest
          s.positionInQueue s.timerPeriodMs hsB hpos2 hnd2
        have hstepperm := shuffleBack_front_perm
          ⟨first.timer, s.timerPeriodMs first.timer⟩ rest
          s.positionInQueue s.timerPeriodMs
        have hmapeq : ((⟨first.timer, s.timerPeriodMs first.timer⟩ : TimerCountdown)
            :: rest).map TimerCountdown.timer
            = (first :: rest).map TimerCountdown.timer := by
          simp
        rw [hmapeq] at hstepperm
        have hstepper : (shuffleTimerBackInQueue
            ⟨⟨first.timer, s.timerPeriodMs first.timer⟩ :: rest,
              s.positionInQueue, s.timerPeriodMs⟩ 0).timerPeriodMs
            = s.timerPeriodMs :=
          shuffleTimerBackInQueue_period _ 0
        by_cases hto : timeout < now + env.callbackDuration first.timer
        · have h0 : callTimersLoop env timeout (fuel + 1) s now =
              (shuffleTimerBackInQueue
                ⟨⟨first.timer, s.timerPeriodMs first.timer⟩ :: rest,
                  s.positionInQueue, s.timerPeriodMs⟩ 0,
                [⟨first.timer, now, s.timerPeriodMs first.timer,
                  ! env.callbackThrows first.timer⟩],
                now + env.callbackDuration first.timer) := by
            simp only [callTimersLoop, invokeCallback, hts, if_neg hdue,
              List.set_cons_zero, if_pos hto]
          rw [h0]
          exact ⟨hstep, hstepperm, hstepper⟩
        · have h0 : callTimersLoop env timeout (fuel + 1) s now =
              ((callTimersLoop env timeout fuel
                  (shuffleTimerBackInQueue
                    ⟨⟨first.timer, s.timerPeriodMs first.timer⟩ :: rest,
                      s.positionInQueue, s.timerPeriodMs⟩ 0)
                  (now + env.callbackDuration first.timer)).1,
                ⟨first.timer, now, s.timerPeriodMs first.timer,
                  ! env.callbackThrows first.timer⟩ ::
                  (callTimersLoop env timeout fuel
                    (shuffleTimerBackInQueue
                      ⟨⟨first.timer, s.timerPeriodMs first.timer⟩ :: rest,
                        s.positionInQueue, s.timerPeriodMs⟩ 0)
                    (now + env.callbackDuration first.timer)).2.1,
                (callTimersLoop env timeout fuel
                  (shuffleTimerBackInQueue
                    ⟨⟨first.timer, s.timerPeriodMs first.timer⟩ :: rest,
                      s.positionInQueue, s.timerPeriodMs⟩ 0)
                  (now + env.callbackDuration first.timer)).2.2) := by
            simp only [callTimersLoop, invokeCallback, hts, if_neg hdue,
              List.set_cons_zero, if_neg hto]
          rw [h0]
          obtain ⟨hq3, hperm3, hper3⟩ := ih
            (shuffleTimerBackInQueue
              ⟨⟨first.timer, s.timerPeriodMs first.timer⟩ :: rest,
                s.positionInQueue, s.timerPeriodMs⟩ 0)
            (now + env.callbackDuration first.timer) hstep
          exact ⟨hq3, List.Perm.trans hperm3 hstepperm, by rw [hper3, hstepper]⟩

/-! Unfolding equations for one iteration of the due-timer loop. -/

theorem callTimersLoop_succ_nil (env : CallEnv) (timeout fuel : Nat) (s : TimerSys)
    (now : Nat) (hts : s.timers = []) :
    callTimersLoop env timeout (fuel + 1) s now = (s, [], now) := by
  simp only [callTimersLoop, hts]

theorem callTimersLoop_succ_notdue (env : CallEnv) (timeout fuel : Nat) (s : TimerSys)
    (now : Nat) (first : TimerCountdown) (rest : List TimerCountdown)
    (hts : s.timers = first :: rest) (hdue : 0 < first.countdownMs) :
    callTimersLoop env timeout (fuel + 1) s now = (s, [], now) := by
  simp only [callTimersLoop, hts, if_pos hdue]

theorem callTimersLoop_succ_due (env : CallEnv) (timeout fuel : Nat) (s : TimerSys)
    (now : Nat) (first : TimerCountdown) (rest : List TimerCountdown)
    (hts : s.timers = first :: rest) (hdue : ¬ 0 < first.countdownMs) :
    callTimersLoop env timeout (fuel + 1) s now =
      if timeout < now + env.callbackDuration first.timer then
        (popReinsert s first rest,
          [⟨first.timer, now, s.timerPeriodMs first.timer,
            ! env.callbackThrows first.timer⟩],
          now + env.callbackDuration first.timer)
      else
        ((callTimersLoop env timeout fuel (popReinsert s first rest)
            (now + env.callbackDuration first.timer)).1,
          ⟨first.timer, now, s.timerPeriodMs first.timer,
            ! env.callbackThrows first.timer⟩ ::
            (callTimersLoop env timeout fuel (popReinsert s first rest)
              (now + env.callbackDuration first.timer)).2.1,
          (callTimersLoop env timeout fuel (popReinsert s first rest)
            (now + env.callbackDuration first.timer)).2.2) := by
  simp only [callTimersLoop, invokeCallback, hts, List.set_cons_zero, popReinsert]
  rw [if_neg hdue]

theorem popReinsert_period (s : TimerSys) (first : TimerCountdown)
    (rest : List TimerCountdown) :
    (popReinsert s first rest).timerPeriodMs = s.timerPeriodMs :=
  shuffleTimerBackInQueue_period _ 0

theorem popReinsert_ids (s : TimerSys) (first : TimerCountdown)
    (rest : List TimerCountdown) :
    List.Perm ((popReinsert s first rest).timers.map TimerCountdown.timer)
      ((first :: rest).map TimerCountdown.timer) := by
  have h := shuffleBack_front_perm ⟨first.timer, s.timerPeriodMs first.timer⟩ rest
    s.positionInQueue s.timerPeriodMs
  have hmapeq : ((⟨first.timer, s.timerPeriodMs first.timer⟩ : TimerCountdown)
      :: rest).map TimerCountdown.timer = (first :: rest).map TimerCountdown.timer := by
    simp
  rw [hmapeq] at h
  exact h

/-- Identity of the queued handles is preserved by the due-timer loop,
unconditionally. -/
theorem callTimersLoop_ids_perm (env : CallEnv) (timeout fuel : Nat) :
    ∀ (s : TimerSys) (now : Nat),
      List.Perm ((callTimersLoop env timeout fuel s now).1.timers.map
        TimerCountdown.timer) (s.timers.map TimerCountdown.timer) := by
  induction fuel with
  | zero =>
    intro s now
    exact List.Perm.refl _
  | succ fuel ih =>
    intro s now
    cases hts : s.timers with
    | nil =>
      rw [callTimersLoop_succ_nil env timeout fuel s now hts]
      have h : List.Perm (s.timers.map TimerCountdown.timer)
          (([] : List TimerCountdown).map TimerCountdown.timer) := by rw [hts]
      exact h
    | cons first rest =>
      by_cases hdue : 0 < first.countdownMs
      · rw [callTimersLoop_succ_notdue env timeout fuel s now first rest hts hdue]
        have h : List.Perm (s.timers.map TimerCountdown.timer)
            ((first :: rest).map TimerCountdown.timer) := by rw [hts]
        exact h
      · rw [callTimersLoop_succ_due env timeout fuel s now first rest hts hdue]
        by_cases hto : timeout < now + env.callbackDuration first.timer
        · rw [if_pos hto]
          exact popReinsert_ids s first rest
        · rw [if_neg hto]
          exact List.Perm.trans
            (ih (popReinsert s first rest) (now + env.callbackDuration first.timer))
            (popReinsert_ids s first rest)

/-- Stored periods are untouched by the due-timer loop. -/
theorem callTimersLoop_period (env : CallEnv) (timeout fuel : Nat) :
    ∀ (s : TimerSys) (now : Nat),
      (callTimersLoop env timeout fuel s now).1.timerPeriodMs = s.timerPeriodMs := by
  induction fuel with
  | zero =>
    intro s now
    rfl
  | succ fuel ih =>
    intro s now
    cases hts : s.timers with
    | nil =>
      rw [callTimersLoop_succ_nil env timeout fuel s now hts]
    | cons first rest =>
      by_cases hdue : 0 < first.countdownMs
      · rw [callTimersLoop_succ_notdue env timeout fuel s now first rest hts hdue]
      · rw [callTimersLoop_succ_due env timeout fuel s now first rest hts hdue]
        by_cases hto : timeout < now + env.callbackDuration first.timer
        · rw [if_pos hto]
          exact popReinsert_period s first rest
        · rw [if_neg hto]
          rw [show ((callTimersLoop env timeout fuel (popReinsert s first rest)
              (now + env.callbackDuration first.timer)).1,
              (⟨first.timer, now, s.timerPeriodMs first.timer,
                ! env.callbackThrows first.timer⟩ : Invocation) ::
                (callTimersLoop env timeout fuel (popReinsert s first rest)
                  (now + env.callbackDuration first.timer)).2.1,
              (callTimersLoop env timeout fuel (popReinsert s first rest)
                (now + env.callbackDuration first.timer)).2.2).1
              = (callTimersLoop env timeout fuel (popReinsert s first rest)
                (now + env.callbackDuration first.timer)).1 from rfl]
          rw [ih (popReinsert s first rest) (now + env.callbackDuration first.timer)]
          exact popReinsert_period s first rest

/-- Every callback invocation a round performs is entered at a clock reading
no later than the round deadline (the check `> timeout` runs after each
callback, before the next one starts). -/
theorem callTimersLoop_startMs (env : CallEnv) (timeout fuel : Nat) :
    ∀ (s : TimerSys) (now : Nat), now ≤ timeout →
      ∀ inv ∈ (callTimersLoop env timeout fuel s now).2.1, inv.startMs ≤ timeout := by
  induction fuel with
  | zero =>
    intro s now hnow inv hinv
    simp only [callTimersLoop] at hinv
    simp at hinv
  | succ fuel ih =>
    intro s now hnow inv hinv
    cases hts : s.timers with
    | nil =>
      rw [callTimersLoop_succ_nil env timeout fuel s now hts] at hinv
      simp at hinv
    | cons first rest =>
      by_cases hdue : 0 < first.countdownMs
      · rw [callTimersLoop_succ_notdue env timeout fuel s now first rest hts hdue] at hinv
        simp at hinv
      · rw [callTimersLoop_succ_due env timeout fuel s now first rest hts hdue] at hinv
        by_cases hto : timeout < now + env.callbackDuration first.timer
        · rw [if_pos hto] at hinv
          simp only [List.mem_singleton] at hinv
          subst hinv
          exact hnow
        · rw [if_neg hto] at hinv
          simp only [List.mem_cons] at hinv
          rcases hinv with h | h
          · subst h; exact hnow
          · exact ih (popReinsert s first rest)
              (now + env.callbackDuration first.timer) (le_of_not_lt hto) inv h

/-- Every invocation record carries, as the countdown stored at call time,
exactly the full period of the invoked timer: the reset happens before the
callback is entered. -/
theorem callTimersLoop_countdownAtCall (env : CallEnv) (timeout fuel : Nat) :
    ∀ (s : TimerSys) (now : Nat),
      ∀ inv ∈ (callTimersLoop env timeout fuel s now).2.1,
        inv.countdownAtCall = s.timerPeriodMs inv.timer := by
  induction fuel with
  | zero =>
    intro s now inv hinv
    simp only [callTimersLoop] at hinv
    simp at hinv
  | succ fuel ih =>
    intro s now inv hinv
    cases hts : s.timers with
    | nil =>
      rw [callTimersLoop_succ_nil env timeout fuel s now hts] at hinv
      simp at hinv
    | cons first rest =>
      by_cases hdue : 0 < first.countdownMs
      · rw [callTimersLoop_succ_notdue env timeout fuel s now first rest hts hdue] at hinv
        simp at hinv
      · rw [callTimersLoop_succ_due env timeout fuel s now first rest hts hdue] at hinv
        by_cases hto : timeout < now + env.callbackDuration first.timer
        · rw [if_pos hto] at hinv
          simp only [List.mem_singleton] at hinv
          subst hinv
          rfl
        · rw [if_neg hto] at hinv
          simp only [List.mem_cons] at hinv
          rcases hinv with h | h
          · subst h; rfl
          · have := ih (popReinsert s first rest)
              (now + env.callbackDuration first.timer) inv h
            rw [this, popReinsert_period]

/-- Every timer a round invokes is still in the queue when the round ends:
its countdown was reset before the callback ran and the shuffle only moves
entries. -/
theorem callTimersLoop_invoked_mem (env : CallEnv) (timeout fuel : Nat) :
    ∀ (s : TimerSys) (now : Nat),
      ∀ inv ∈ (callTimersLoop env timeout fuel s now).2.1,
        inv.timer ∈ (callTimersLoop env timeout fuel s now).1.timers.map
          TimerCountdown.timer := by
  induction fuel with
  | zero =>
    intro s now inv hinv
    simp only [callTimersLoop] at hinv
    simp at hinv
  | succ fuel ih =>
    intro s now inv hinv
    cases hts : s.timers with
    | nil =>
      rw [callTimersLoop_succ_nil env timeout fuel s now hts] at hinv
      simp at hinv
    | cons first rest =>
      by_cases hdue : 0 < first.countdownMs
      · rw [callTimersLoop_succ_notdue env timeout fuel s now first rest hts hdue] at hinv
        simp at hinv
      · rw [callTimersLoop_succ_due env timeout fuel s now first rest hts hdue] at hinv
        rw [callTimersLoop_succ_due env timeout fuel s now first rest hts hdue]
        by_cases hto : timeout < now + env.callbackDuration first.timer
        · rw [if_pos hto] at hinv
          rw [if_pos hto]
          simp only [List.mem_singleton] at hinv
          subst hinv
          rw [(popReinsert_ids s first rest).mem_iff]
          simp
        · rw [if_neg hto] at hinv
          rw [if_neg hto]
          simp only [List.mem_cons] at hinv
          rcases hinv with h | h
          · subst h
            rw [(callTimersLoop_ids_perm env timeout fuel (popReinsert s first rest)
              (now + env.callbackDuration first.timer)).mem_iff]
            rw [(popReinsert_ids s first rest).mem_iff]
            simp
          · exact ih (popReinsert s first rest)
              (now + env.callbackDuration first.timer) inv h

/-- The whole outcome of a round — final queue state, final clock, and the
(timer, start time, countdown-at-call) content of the invocation trace — is
independent of which callbacks raise exceptions: the raise is caught and
swallowed at the invocation boundary and the loop continues identically. -/
theorem callTimersLoop_throws_indep (env : CallEnv) (f : Nat → Bool)
    (timeout fuel : Nat) :
    ∀ (s : TimerSys) (now : Nat),
      (callTimersLoop { env with callbackThrows := f } timeout fuel s now).1
          = (callTimersLoop env timeout fuel s now).1 ∧
        (callTimersLoop { env with callbackThrows := f } timeout fuel s now).2.2
          = (callTimersLoop env timeout fuel s now).2.2 ∧
        ((callTimersLoop { env with callbackThrows := f } timeout fuel s now).2.1.map
            fun inv => (inv.timer, inv.startMs, inv.countdownAtCall))
          = ((callTimersLoop env timeout fuel s now).2.1.map
            fun inv => (inv.timer, inv.startMs, inv.countdownAtCall)) := by
  induction fuel with
  | zero =>
    intro s now
    exact ⟨rfl, rfl, rfl⟩
  | succ fuel ih =>
    intro s now
    cases hts : s.timers with
    | nil =>
      rw [callTimersLoop_succ_nil { env with callbackThrows := f } timeout fuel s now hts,
        callTimersLoop_succ_nil env timeout fuel s now hts]
      exact ⟨rfl, rfl, rfl⟩
    | cons first rest =>
      by_cases hdue : 0 < first.countdownMs
      · rw [callTimersLoop_succ_notdue { env with callbackThrows := f } timeout fuel
          s now first rest hts hdue,
          callTimersLoop_succ_notdue env timeout fuel s now first rest hts hdue]
        exact ⟨rfl, rfl, rfl⟩
      · rw [callTimersLoop_succ_due { env with callbackThrows := f } timeout fuel
          s now first rest hts hdue,
          callTimersLoop_succ_due env timeout fuel s now first rest hts hdue]
        by_cases hto : timeout < now + env.callbackDuration first.timer
        · rw [if_pos hto, if_pos hto]
          exact ⟨rfl, rfl, rfl⟩
        · rw [if_neg hto, if_neg hto]
          obtain ⟨h1, h2, h3⟩ := ih (popReinsert s first rest)
            (now + env.callbackDuration first.timer)
          refine ⟨h1, h2, ?_⟩
          simp only [List.map_cons]
          rw [h3]

/-! Invariant preservation through a whole `callTimers` round, and facts
about the concrete example states. -/

theorem callTimers_inv (env : CallEnv) (now fuel : Nat) (s : TimerSys)
    (h : Inv s) : Inv (callTimers env now fuel s).1 := by
  obtain ⟨hq, hact, hnn⟩ := h
  by_cases hsd : (env.mmExists && env.stopMessageBeenSent) = true
  · rw [callTimers, if_pos hsd]
    exact ⟨hq, hact, hnn⟩
  · rw [callTimers, if_neg hsd]
    obtain ⟨hq2, hperm, hper⟩ := callTimersLoop_spec env (now + 100) fuel s now hq
    refine ⟨hq2, ?_, ?_⟩
    · intro u
      rw [show (∃ e ∈ (callTimersLoop env (now + 100) fuel s now).1.timers,
          e.timer = u) ↔ u ∈ ((callTimersLoop env (now + 100) fuel s
            now).1.timers.map TimerCountdown.timer) from (List.mem_map).symm]
      rw [hperm.mem_iff, hper]
      constructor
      · intro h1; exact (hact u).mp (List.mem_map.mp h1)
      · intro hp; exact List.mem_map.mpr ((hact u).mpr hp)
    · intro u
      rw [hper]
      exact hnn u

theorem exTwo_queueInv : QueueInv exTwo := by
  refine ⟨?_, ?_, ?_⟩
  · exact (by decide :
      List.Pairwise (fun a b => a.countdownMs ≤ b.countdownMs) exTwo.timers)
  · exact (by decide : (exTwo.timers.map TimerCountdown.timer).Nodup)
  · exact (by decide : ∀ i, i < exTwo.timers.length →
      exTwo.positionInQueue ((exTwo.timers.getD i default).timer) = 0 + i)

theorem exDue_queueInv : QueueInv exDue := by
  refine ⟨?_, ?_, ?_⟩
  · exact (by decide :
      List.Pairwise (fun a b => a.countdownMs ≤ b.countdownMs) exDue.timers)
  · exact (by decide : (exDue.timers.map TimerCountdown.timer).Nodup)
  · exact (by decide : ∀ i, i < exDue.timers.length →
      exDue.positionInQueue ((exDue.timers.getD i default).timer) = 0 + i)

theorem exTwo_inv : Inv exTwo := by
  refine ⟨exTwo_queueInv, ?_, ?_⟩
  · intro u
    constructor
    · rintro ⟨e, he, het⟩
      have he2 : e = ⟨10, 3⟩ ∨ e = ⟨20, 7⟩ := by
        have := he
        simp only [exTwo, List.mem_cons, List.not_mem_nil, or_false] at this
        exact this
      subst het
      rcases he2 with h | h <;> subst h <;> decide
    · intro hu
      by_cases h10 : u = 10
      · subst h10
        exact ⟨⟨10, 3⟩, by simp [exTwo], rfl⟩
      · by_cases h20 : u = 20
        · subst h20
          exact ⟨⟨20, 7⟩, by simp [exTwo], rfl⟩
        · exfalso
          have hz : exTwo.timerPeriodMs u = 0 := by
            simp [exTwo, updFn, h10, h20]
          omega
  · intro u
    by_cases h10 : u = 10
    · subst h10; decide
    · by_cases h20 : u = 20
      · subst h20; decide
      · have hz : exTwo.timerPeriodMs u = 0 := by
          simp [exTwo, updFn, h10, h20]
        omega

theorem getD_map_countdown (l : List TimerCountdown) (e : Int) (i : Nat)
    (h : i < l.length) :
    ((l.map fun x : TimerCountdown =>
      { x with countdownMs := x.countdownMs - e }).getD i
      default).countdownMs = (l.getD i default).countdownMs - e := by
  induction l generalizing i with
  | nil => simp at h
  | cons a l ih =>
    cases i with
    | zero => rfl
    | succ i =>
      simpa using ih i (by simpa using Nat.lt_of_succ_lt_succ (by simpa using h))

/-! Claim theorems. -/

/-- C1: after every mutating queue operation — `addTimer`, `removeTimer`,
`resetTimerCounter`, the pop-and-reinsert step of the due-timer round, and
hence the whole round loop — the queue is ordered ascending by remaining
countdown (given the queue invariant and each operation's defensive
precondition); consequently the earliest-firing timer is always at
position 0 (the head bounds every entry from below). -/
theorem C1_queue_sorted_after_every_mutation :
    (∀ (s : TimerSys) (t : Nat), QueueInv s →
      t ∉ s.timers.map TimerCountdown.timer →
      sortedByCountdown (addTimer s t).timers) ∧
    (∀ (s : TimerSys) (t j : Nat), QueueInv s → j < s.timers.length →
      (s.timers.getD j default).timer = t →
      sortedByCountdown (removeTimer s t).timers) ∧
    (∀ (s : TimerSys) (t j : Nat), QueueInv s → j < s.timers.length →
      (s.timers.getD j default).timer = t →
      sortedByCountdown (resetTimerCounter s t).timers) ∧
    (∀ (s : TimerSys) (first : TimerCountdown) (rest : List TimerCountdown),
      QueueInv s → s.timers = first :: rest →
      sortedByCountdown (popReinsert s first rest).timers) ∧
    (∀ (env : CallEnv) (timeout fuel : Nat) (s : TimerSys) (now : Nat),
      QueueInv s →
      sortedByCountdown (callTimersLoop env timeout fuel s now).1.timers) ∧
    (∀ (l : List TimerCountdown) (e h0 : TimerCountdown), sortedByCountdown l →
      e ∈ l → l.head? = some h0 → h0.countdownMs ≤ e.countdownMs) := by
  refine ⟨?_, ?_, ?_, ?_, ?_, ?_⟩
  · intro s t hq ht
    exact (addTimer_spec s t hq ht).1.1
  · intro s t j hq hj ht
    exact (removeTimer_spec s t j hq hj ht).2.1.1
  · intro s t j hq hj ht
    exact (resetTimerCounter_spec s t j hq hj ht).1.1
  · intro s first rest hq hts
    obtain ⟨hs, hnd, hposOK⟩ := hq
    have hsB : sortedByCountdown rest := by
      rw [hts] at hs
      exact (List.pairwise_cons.mp hs).2
    have hpos2 : posOKFrom s.positionInQueue 0
        ((⟨first.timer, s.timerPeriodMs first.timer⟩ : TimerCountdown) :: rest) := by
      rw [hts, posOKFrom_cons] at hposOK
      rw [posOKFrom_cons]
      exact ⟨hposOK.1, hposOK.2⟩
    have hnd2 : (((⟨first.timer, s.timerPeriodMs first.timer⟩ : TimerCountdown)
        :: rest).map TimerCountdown.timer).Nodup := by
      rw [hts] at hnd
      simpa using hnd
    exact (shuffleBack_front_spec ⟨first.timer, s.timerPeriodMs first.timer⟩ rest
      s.positionInQueue s.timerPeriodMs hsB hpos2 hnd2).1
  · intro env timeout fuel s now hq
    exact (callTimersLoop_spec env timeout fuel s now hq).1.1
  · intro l e h0 hs he hh
    exact sorted_head_le l hs e he h0 hh

/-- C1 witness: the sortedness conclusions evaluated on the concrete
two-timer state. -/
theorem C1_witness :
    QueueInv exTwo ∧
      sortedByCountdown (addTimer exTwo 5).timers ∧
      sortedByCountdown (removeTimer exTwo 10).timers ∧
      sortedByCountdown (resetTimerCounter exTwo 20).timers ∧
      sortedByCountdown (callTimersLoop exEnv 1100 5 exDue 1000).1.timers :=
  ⟨exTwo_queueInv,
    C1_queue_sorted_after_every_mutation.1 exTwo 5 exTwo_queueInv (by decide),
    C1_queue_sorted_after_every_mutation.2.1 exTwo 10 0 exTwo_queueInv
      (by decide) (by decide),
    C1_queue_sorted_after_every_mutation.2.2.1 exTwo 20 1 exTwo_queueInv
      (by decide) (by decide),
    C1_queue_sorted_after_every_mutation.2.2.2.2.1 exEnv 1100 5 exDue 1000
      exDue_queueInv⟩

/-- C2: after any mutating operation, the queued handles are pairwise
distinct (every active handle appears exactly once) and every handle's
recorded `positionInQueue` equals its true index in the queue. -/
theorem C2_positions_match_indices :
    (∀ (s : TimerSys) (t : Nat), QueueInv s →
      t ∉ s.timers.map TimerCountdown.timer →
      ((addTimer s t).timers.map TimerCountdown.timer).Nodup ∧
        posOKFrom (addTimer s t).positionInQueue 0 (addTimer s t).timers) ∧
    (∀ (s : TimerSys) (t j : Nat), QueueInv s → j < s.timers.length →
      (s.timers.getD j default).timer = t →
      ((removeTimer s t).timers.map TimerCountdown.timer).Nodup ∧
        posOKFrom (removeTimer s t).positionInQueue 0 (removeTimer s t).timers) ∧
    (∀ (s : TimerSys) (t j : Nat), QueueInv s → j < s.timers.length →
      (s.timers.getD j default).timer = t →
      ((resetTimerCounter s t).timers.map TimerCountdown.timer).Nodup ∧
        posOKFrom (resetTimerCounter s t).positionInQueue 0
          (resetTimerCounter s t).timers) ∧
    (∀ (s : TimerSys) (first : TimerCountdown) (rest : List TimerCountdown),
      QueueInv s → s.timers = first :: rest →
      ((popReinsert s first rest).timers.map TimerCountdown.timer).Nodup ∧
        posOKFrom (popReinsert s first rest).positionInQueue 0
          (popReinsert s first rest).timers) ∧
    (∀ (env : CallEnv) (timeout fuel : Nat) (s : TimerSys) (now : Nat),
      QueueInv s →
      ((callTimersLoop env timeout fuel s now).1.timers.map
        TimerCountdown.timer).Nodup ∧
        posOKFrom (callTimersLoop env timeout fuel s now).1.positionInQueue 0
          (callTimersLoop env timeout fuel s now).1.timers) := by
  refine ⟨?_, ?_, ?_, ?_, ?_⟩
  · intro s t hq ht
    exact ⟨(addTimer_spec s t hq ht).1.2.1, (addTimer_spec s t hq ht).1.2.2⟩
  · intro s t j hq hj ht
    exact ⟨(removeTimer_spec s t j hq hj ht).2.1.2.1,
      (removeTimer_spec s t j hq hj ht).2.1.2.2⟩
  · intro s t j hq hj ht
    exact ⟨(resetTimerCounter_spec s t j hq hj ht).1.2.1,
      (resetTimerCounter_spec s t j hq hj ht).1.2.2⟩
  · intro s first rest hq hts
    obtain ⟨hs, hnd, hposOK⟩ := hq
    have hsB : sortedByCountdown rest := by
      rw [hts] at hs
      exact (List.pairwise_cons.mp hs).2
    have hpos2 : posOKFrom s.positionInQueue 0
        ((⟨first.timer, s.timerPeriodMs first.timer⟩ : TimerCountdown) :: rest) := by
      rw [hts, posOKFrom_cons] at hposOK
      rw [posOKFrom_cons]
      exact ⟨hposOK.1, hposOK.2⟩
    have hnd2 : (((⟨first.timer, s.timerPeriodMs first.timer⟩ : TimerCountdown)
        :: rest).map TimerCountdown.timer).Nodup := by
      rw [hts] at hnd
      simpa using hnd
    have h := shuffleBack_front_spec ⟨first.timer, s.timerPeriodMs first.timer⟩ rest
      s.positionInQueue s.timerPeriodMs hsB hpos2 hnd2
    exact ⟨h.2.1, h.2.2⟩
  · intro env timeout fuel s now hq
    have h := (callTimersLoop_spec env timeout fuel s now hq).1
    exact ⟨h.2.1, h.2.2⟩

/-- C2 witness: uniqueness and position correctness evaluated on the
concrete two-timer state. -/
theorem C2_witness :
    QueueInv exTwo ∧
      ((addTimer exTwo 5).timers.map TimerCountdown.timer).Nodup ∧
      posOKFrom (addTimer exTwo 5).positionInQueue 0 (addTimer exTwo 5).timers ∧
      posOKFrom (removeTimer exTwo 10).positionInQueue 0
        (removeTimer exTwo 10).timers ∧
      posOKFrom (resetTimerCounter exTwo 20).positionInQueue 0
        (resetTimerCounter exTwo 20).timers :=
  ⟨exTwo_queueInv,
    (C2_positions_match_indices.1 exTwo 5 exTwo_queueInv (by decide)).1,
    (C2_positions_match_indices.1 exTwo 5 exTwo_queueInv (by decide)).2,
    (C2_positions_match_indices.2.1 exTwo 10 0 exTwo_queueInv (by decide)
      (by decide)).2,
    (C2_positions_match_indices.2.2.1 exTwo 20 1 exTwo_queueInv (by decide)
      (by decide)).2⟩

/-- C3: in every round, every callback is entered at a clock reading of at
most the hard deadline `now + 100` fixed when the round started — once the
clock passes that deadline no further callback is invoked — and the round
removes no timer from the queue: any remaining due entries stay queued for a
later round. -/
theorem C3_deadline_bounds_round (env : CallEnv) (now fuel : Nat) (s : TimerSys) :
    (∀ inv ∈ (callTimers env now fuel s).2.1, inv.startMs ≤ now + 100) ∧
      List.Perm ((callTimers env now fuel s).1.timers.map TimerCountdown.timer)
        (s.timers.map TimerCountdown.timer) := by
  by_cases hsd : (env.mmExists && env.stopMessageBeenSent) = true
  · rw [callTimers, if_pos hsd]
    refine ⟨?_, List.Perm.refl _⟩
    intro inv hinv
    simp at hinv
  · rw [callTimers, if_neg hsd]
    exact ⟨callTimersLoop_startMs env (now + 100) fuel s now (by omega),
      callTimersLoop_ids_perm env (now + 100) fuel s now⟩

/-- C3 witness: with 60 ms callbacks and deadline 1100, both due timers of
the concrete state run (at 1000 and 1060, both at most the deadline) and
both remain queued afterwards. -/
theorem C3_witness :
    (⟨10, 1000, 3, false⟩ : Invocation) ∈ (callTimers exEnv 1000 5 exDue).2.1 ∧
      (⟨20, 1060, 7, true⟩ : Invocation) ∈ (callTimers exEnv 1000 5 exDue).2.1 ∧
      (1000 : Nat) ≤ 1000 + 100 ∧ (1060 : Nat) ≤ 1000 + 100 :=
  ⟨by decide, by decide,
    (C3_deadline_bounds_round exEnv 1000 5 exDue).1 ⟨10, 1000, 3, false⟩
      (by decide),
    (C3_deadline_bounds_round exEnv 1000 5 exDue).1 ⟨20, 1060, 7, true⟩
      (by decide)⟩

/-- C4 counterexample: `startTimer` with a non-positive interval does NOT
stop the timer.  On the empty state, `startTimer 0 0` leaves handle 0
Running with stored period 1 and queued, while `stopTimer 0` leaves it
Stopped — the two resulting states differ. -/
theorem C4_counterexample :
    (startTimer exEmpty 0 0).timerPeriodMs 0 = 1 ∧
      (startTimer exEmpty 0 0).timers.map TimerCountdown.timer = [0] ∧
      (stopTimer exEmpty 0).timerPeriodMs 0 = 0 ∧
      (stopTimer exEmpty 0).timers.map TimerCountdown.timer = [] ∧
      startTimer exEmpty 0 0 ≠ stopTimer exEmpty 0 := by
  refine ⟨by decide, by decide, by decide, by decide, ?_⟩
  intro h
  have h2 : (startTimer exEmpty 0 0).timerPeriodMs 0
      = (stopTimer exEmpty 0).timerPeriodMs 0 := by rw [h]
  rw [show (startTimer exEmpty 0 0).timerPeriodMs 0 = 1 from by decide,
    show (stopTimer exEmpty 0).timerPeriodMs 0 = 0 from by decide] at h2
  exact absurd h2 (by decide)

/-- C4 amended: `startTimer` with interval `p ≤ 0` is equivalent to
`startTimer` with interval 1 (the period clamps to `jmax (1, p) = 1` and the
handle ends Running), not to `stopTimer`. -/
theorem C4_amended_start_nonpos_is_start_one (s : TimerSys) (t : Nat) (p : Int)
    (hp : p ≤ 0) : startTimer s t p = startTimer s t 1 := by
  have hm : (max 1 p : Int) = 1 := max_eq_left (by omega)
  have hm1 : (max 1 (1 : Int)) = 1 := max_self 1
  simp only [startTimer, hm, hm1]

/-- C4 amended witness. -/
theorem C4_amended_witness :
    (0 : Int) ≤ 0 ∧ startTimer exEmpty 0 0 = startTimer exEmpty 0 1 :=
  ⟨le_refl 0, C4_amended_start_nonpos_is_start_one exEmpty 0 0 (le_refl 0)⟩

/-- C5: a callback fault is caught and swallowed at the invocation boundary.
The final queue state, final clock, and which timers ran when (with which
stored countdown) are independent of which callbacks raise; every invoked
timer had its countdown already reset to its full stored period before its
callback was entered; and every invoked timer is still queued when the round
ends, so it remains scheduled for its next fire. -/
theorem C5_callback_fault_suppressed (env : CallEnv) (f : Nat → Bool)
    (now fuel : Nat) (s : TimerSys) :
    ((callTimers { env with callbackThrows := f } now fuel s).1
        = (callTimers env now fuel s).1 ∧
      (callTimers { env with callbackThrows := f } now fuel s).2.2
        = (callTimers env now fuel s).2.2 ∧
      ((callTimers { env with callbackThrows := f } now fuel s).2.1.map
          fun inv => (inv.timer, inv.startMs, inv.countdownAtCall))
        = ((callTimers env now fuel s).2.1.map
          fun inv => (inv.timer, inv.startMs, inv.countdownAtCall))) ∧
      (∀ inv ∈ (callTimers env now fuel s).2.1,
        inv.countdownAtCall = s.timerPeriodMs inv.timer) ∧
      (∀ inv ∈ (callTimers env now fuel s).2.1,
        inv.timer ∈ (callTimers env now fuel s).1.timers.map
          TimerCountdown.timer) := by
  by_cases hsd : (env.mmExists && env.stopMessageBeenSent) = true
  · rw [callTimers, callTimers, if_pos hsd, if_pos hsd]
    refine ⟨⟨rfl, rfl, rfl⟩, ?_, ?_⟩ <;>
      · intro inv hinv
        simp at hinv
  · rw [callTimers, callTimers, if_neg hsd, if_neg hsd]
    exact ⟨callTimersLoop_throws_indep env f (now + 100) fuel s now,
      callTimersLoop_countdownAtCall env (now + 100) fuel s now,
      callTimersLoop_invoked_mem env (now + 100) fuel s now⟩

/-- C5 witness: in the concrete round, the callback of timer 10 raises, yet
its countdown was reset to its full period of 3 before the call, it stays
queued, and the timer after it (20) still runs. -/
theorem C5_witness :
    (⟨10, 1000, 3, false⟩ : Invocation) ∈ (callTimers exEnv 1000 5 exDue).2.1 ∧
      (⟨20, 1060, 7, true⟩ : Invocation) ∈ (callTimers exEnv 1000 5 exDue).2.1 ∧
      (⟨10, 1000, 3, false⟩ : Invocation).countdownAtCall
        = exDue.timerPeriodMs 10 ∧
      (10 : Nat) ∈ (callTimers exEnv 1000 5 exDue).1.timers.map
        TimerCountdown.timer :=
  ⟨by decide, by decide,
    (C5_callback_fault_suppressed exEnv (fun _ => false) 1000 5 exDue).2.1
      ⟨10, 1000, 3, false⟩ (by decide),
    (C5_callback_fault_suppressed exEnv (fun _ => false) 1000 5 exDue).2.2
      ⟨10, 1000, 3, false⟩ (by decide)⟩

/-- C6 counterexample: the elapsed time computed by `run()` does NOT always
equal the difference of the counter readings modulo 2^32.  At
`now = 0`, `lastTime = 2^32 - 1` the true modular difference is 1 but the
code computes `UINT32_MAX - (lastTime - now) = 0` — one millisecond short in
every wraparound iteration. -/
theorem C6_counterexample :
    ¬ (∀ now lastTime : Nat, now < 2 ^ 32 → lastTime < 2 ^ 32 →
      computeElapsed now lastTime = (now + 2 ^ 32 - lastTime) % 2 ^ 32) := by
  intro h
  have h1 := h 0 (2 ^ 32 - 1) (by norm_num) (by norm_num)
  rw [show computeElapsed 0 (2 ^ 32 - 1) = 0 from by decide,
    show (0 + 2 ^ 32 - (2 ^ 32 - 1)) % 2 ^ 32 = 1 from by decide] at h1
  exact absurd h1 (by decide)

/-- C6 amended: the elapsed amount subtracted from every queued countdown is
the exact modular difference of the two counter readings when no wraparound
occurred, and the modular difference minus one when the counter wrapped
(the source subtracts from `UINT32_MAX` instead of from 2^32); the
background iteration then decrements every queued countdown by exactly that
amount. -/
theorem C6_amended_elapsed (now lastTime : Nat) (hn : now < 2 ^ 32)
    (hl : lastTime < 2 ^ 32) :
    (lastTime ≤ now →
      computeElapsed now lastTime = (now + 2 ^ 32 - lastTime) % 2 ^ 32) ∧
      (now < lastTime →
        computeElapsed now lastTime + 1 = (now + 2 ^ 32 - lastTime) % 2 ^ 32) ∧
      (∀ (s : TimerSys) (e : Int) (i : Nat), i < s.timers.length →
        ((getTimeUntilFirstTimer s e).1.timers.getD i default).countdownMs
          = (s.timers.getD i default).countdownMs - e) := by
  have hpow : (2 : Nat) ^ 32 = 4294967296 := by norm_num
  refine ⟨?_, ?_, ?_⟩
  · intro hle
    rw [computeElapsed, if_pos hle]
    have he : now + 2 ^ 32 - lastTime = (now - lastTime) + 2 ^ 32 := by omega
    rw [he, Nat.add_mod_right]
    exact (Nat.mod_eq_of_lt (by omega)).symm
  · intro hlt
    rw [computeElapsed, if_neg (by omega)]
    have h1 : (now + 2 ^ 32 - lastTime) % 2 ^ 32 = now + 2 ^ 32 - lastTime :=
      Nat.mod_eq_of_lt (by omega)
    rw [h1, hpow] at *
    omega
  · intro s e i hi
    by_cases he : s.timers.isEmpty
    · exfalso
      rw [List.isEmpty_iff] at he
      rw [he] at hi
      simp at hi
    · rw [getTimeUntilFirstTimer, if_neg he]
      exact getD_map_countdown s.timers e i hi

/-- C6 amended witness: a concrete wraparound step, one short of the true
modular difference. -/
theorem C6_amended_witness :
    (5 : Nat) < 2 ^ 32 ∧ 2 ^ 32 - 1 < 2 ^ 32 ∧ (5 : Nat) < 2 ^ 32 - 1 ∧
      computeElapsed 5 (2 ^ 32 - 1) + 1 = (5 + 2 ^ 32 - (2 ^ 32 - 1)) % 2 ^ 32 :=
  ⟨by norm_num, by norm_num, by norm_num,
    (C6_amended_elapsed 5 (2 ^ 32 - 1) (by norm_num) (by norm_num)).2.1
      (by norm_num)⟩

/-- C7: with the queue invariant and the handle queued at its recorded
index `j`, `removeTimer` deletes exactly that entry — the result is the
prefix before `j` followed by the suffix after `j`, so the relative order of
the remaining entries is preserved — and every remaining handle's recorded
position again equals its true index. -/
theorem C7_remove_shifts_later_entries_down (s : TimerSys) (t j : Nat)
    (hq : QueueInv s) (hj : j < s.timers.length)
    (ht : (s.timers.getD j default).timer = t) :
    (removeTimer s t).timers = s.timers.take j ++ s.timers.drop (j + 1) ∧
      posOKFrom (removeTimer s t).positionInQueue 0 (removeTimer s t).timers := by
  obtain ⟨h1, h2, h3⟩ := removeTimer_spec s t j hq hj ht
  exact ⟨h1, h2.2.2⟩

/-- C7 witness: removing the front timer of the concrete two-timer state. -/
theorem C7_witness :
    QueueInv exTwo ∧ (0 : Nat) < exTwo.timers.length ∧
      (exTwo.timers.getD 0 default).timer = 10 ∧
      (removeTimer exTwo 10).timers
        = exTwo.timers.take 0 ++ exTwo.timers.drop 1 ∧
      posOKFrom (removeTimer exTwo 10).positionInQueue 0
        (removeTimer exTwo 10).timers :=
  ⟨exTwo_queueInv, by decide, by decide,
    (C7_remove_shifts_later_entries_down exTwo 10 0 exTwo_queueInv (by decide)
      (by decide)).1,
    (C7_remove_shifts_later_entries_down exTwo 10 0 exTwo_queueInv (by decide)
      (by decide)).2⟩

/-- C8: `startTimerHz` with a positive frequency is literally
`startTimer (1000 / hz)`, and with a non-positive frequency it is literally
`stopTimer`; in particular, under the invariant, frequencies 0 and -5 leave
the timer Stopped (period 0, not queued). -/
theorem C8_startTimerHz_behaviour :
    (∀ (s : TimerSys) (t : Nat) (hz : Int), 0 < hz →
      startTimerHz s t hz = startTimer s t (1000 / hz)) ∧
      (∀ (s : TimerSys) (t : Nat) (hz : Int), hz ≤ 0 →
        startTimerHz s t hz = stopTimer s t) ∧
      (∀ (s : TimerSys) (t : Nat), Inv s →
        (startTimerHz s t 0).timerPeriodMs t = 0 ∧
          t ∉ (startTimerHz s t 0).timers.map TimerCountdown.timer ∧
          (startTimerHz s t (-5)).timerPeriodMs t = 0 ∧
          t ∉ (startTimerHz s t (-5)).timers.map TimerCountdown.timer) := by
  have hz0 : ∀ (s : TimerSys) (t : Nat), startTimerHz s t 0 = stopTimer s t := by
    intro s t
    simp [startTimerHz]
  have hz5 : ∀ (s : TimerSys) (t : Nat), startTimerHz s t (-5) = stopTimer s t := by
    intro s t
    rw [startTimerHz, if_neg (by omega)]
  refine ⟨?_, ?_, ?_⟩
  · intro s t hz h
    rw [startTimerHz, if_pos h]
  · intro s t hz h
    rw [startTimerHz, if_neg (not_lt.mpr h)]
  · intro s t hinv
    obtain ⟨h1, h2, h3⟩ := stopTimer_inv s t hinv
    rw [hz0, hz5]
    exact ⟨h2, h3, h2, h3⟩

/-- C8 witness: evaluating the frequency cases on the concrete state. -/
theorem C8_witness :
    (0 : Int) < 100 ∧ (-5 : Int) ≤ 0 ∧
      startTimerHz exTwo 10 100 = startTimer exTwo 10 (1000 / 100) ∧
      startTimerHz exTwo 10 (-5) = stopTimer exTwo 10 ∧
      (startTimerHz exTwo 10 0).timerPeriodMs 10 = 0 ∧
      (10 : Nat) ∉ (startTimerHz exTwo 10 0).timers.map TimerCountdown.timer :=
  ⟨by decide, by decide,
    C8_startTimerHz_behaviour.1 exTwo 10 100 (by decide),
    C8_startTimerHz_behaviour.2.1 exTwo 10 (-5) (by decide),
    (C8_startTimerHz_behaviour.2.2 exTwo 10 exTwo_inv).1,
    (C8_startTimerHz_behaviour.2.2 exTwo 10 exTwo_inv).2.1⟩

/-- C9: when a `MessageManager` exists and its stop message has been sent,
`callTimers` returns before touching the queue: no callback is invoked and
the state — every entry, every countdown, every recorded position, every
period — is returned unchanged. -/
theorem C9_shutdown_noop (env : CallEnv) (now fuel : Nat) (s : TimerSys)
    (h1 : env.mmExists = true) (h2 : env.stopMessageBeenSent = true) :
    callTimers env now fuel s = (s, [], now) := by
  rw [callTimers, if_pos (by rw [h1, h2]; rfl)]

/-- C9 witness: the shutdown environment on a state with due timers runs
nothing and changes nothing. -/
theorem C9_witness :
    exEnvStop.mmExists = true ∧ exEnvStop.stopMessageBeenSent = true ∧
      callTimers exEnvStop 1000 5 exDue = (exDue, [], 1000) :=
  ⟨rfl, rfl, C9_shutdown_noop exEnvStop 1000 5 exDue rfl rfl⟩

/-- C10: for every interval `n` (including zero and negatives), `startTimer`
leaves the timer Running with stored period `jmax (1, n)`, which is
positive, and the handle queued; every queued handle has period at least 1;
and this invariant is preserved by every operation — `startTimer`,
`stopTimer`, `startTimerHz` and a whole `callTimers` round. -/
theorem C10_period_clamped_to_at_least_one :
    (∀ (s : TimerSys) (t : Nat) (n : Int), Inv s →
      (startTimer s t n).timerPeriodMs t = max 1 n ∧
        0 < (startTimer s t n).timerPeriodMs t ∧
        t ∈ (startTimer s t n).timers.map TimerCountdown.timer) ∧
      (∀ s : TimerSys, Inv s → ∀ e ∈ s.timers, 1 ≤ s.timerPeriodMs e.timer) ∧
      (∀ (s : TimerSys) (t : Nat) (n : Int), Inv s → Inv (startTimer s t n)) ∧
      (∀ (s : TimerSys) (t : Nat), Inv s → Inv (stopTimer s t)) ∧
      (∀ (s : TimerSys) (t : Nat) (hz : Int), Inv s → Inv (startTimerHz s t hz)) ∧
      (∀ (env : CallEnv) (now fuel : Nat) (s : TimerSys), Inv s →
        Inv (callTimers env now fuel s).1) := by
  refine ⟨?_, ?_, ?_, ?_, ?_, ?_⟩
  · intro s t n h
    obtain ⟨h1, h2, h3⟩ := startTimer_inv s t n h
    refine ⟨h2, ?_, h3⟩
    rw [h2]
    have := le_max_left (1 : Int) n
    omega
  · intro s h e he
    obtain ⟨hq, hact, hnn⟩ := h
    have := (hact e.timer).mp ⟨e, he, rfl⟩
    omega
  · intro s t n h
    exact (startTimer_inv s t n h).1
  · intro s t h
    exact (stopTimer_inv s t h).1
  · intro s t hz h
    by_cases hpos : 0 < hz
    · rw [startTimerHz, if_pos hpos]
      exact (startTimer_inv s t (1000 / hz) h).1
    · rw [startTimerHz, if_neg hpos]
      exact (stopTimer_inv s t h).1
  · intro env now fuel s h
    exact callTimers_inv env now fuel s h

/-- C10 witness: starting timer 30 with interval -7 on the concrete state
leaves it Running with period 1 and queued. -/
theorem C10_witness :
    Inv exTwo ∧
      (startTimer exTwo 30 (-7)).timerPeriodMs 30 = max 1 (-7) ∧
      0 < (startTimer exTwo 30 (-7)).timerPeriodMs 30 ∧
      (30 : Nat) ∈ (startTimer exTwo 30 (-7)).timers.map TimerCountdown.timer :=
  ⟨exTwo_inv,
    (C10_period_clamped_to_at_least_one.1 exTwo 30 (-7) exTwo_inv).1,
    (C10_period_clamped_to_at_least_one.1 exTwo 30 (-7) exTwo_inv).2.1,
    (C10_period_clamped_to_at_least_one.1 exTwo 30 (-7) exTwo_inv).2.2⟩

end JuceTimer
